import Mathlib

/-!
Verification of the TOUGH mesh writer and fixed-width record codec of the
toughio repository (files src/toughio/mesh/tough/_tough.py and
src/toughio/_io/input/tough/_helpers.py), against its natural-language
specification.

Python floating-point values are modelled as exact rationals; Python's
decimal rendering of floats (format specifiers such as a width-10
precision-4 fixed or scientific conversion) is modelled by exact decimal
rounding (round half to even), which agrees with CPython on all inputs
considered here (the concrete literals avoid representation-boundary
ties).  Strings are modelled as lists of characters, wrapped into String
only at the outer interfaces.
-/

unseal Rat.mul Rat.inv Rat.add Rat.sub Rat.ofScientific

deriving instance DecidableEq for Except

namespace Toughio

/-! ## Decimal digit machinery (fuel-based, kernel reducible) -/

/-- Character of a single decimal digit. -/
def digChar (d : ℕ) : Char := Char.ofNat (48 + d)

/-- Decimal digits of a natural number, least significant first; fuel-based
so that the kernel can evaluate it. -/
def natDigitsAux : ℕ → ℕ → List ℕ
  | 0, _ => []
  | fuel + 1, n => if n = 0 then [] else n % 10 :: natDigitsAux fuel (n / 10)

/-- Decimal digits of a natural number, least significant first. -/
def natDigitsL (n : ℕ) : List ℕ := natDigitsAux n n

/-- Decimal representation of a natural number as characters, most
significant digit first. -/
def natChars (n : ℕ) : List Char :=
  if n = 0 then ['0'] else ((natDigitsL n).map digChar).reverse

/-- Floor of the base-10 logarithm, fuel-based. -/
def log10Aux : ℕ → ℕ → ℕ
  | 0, _ => 0
  | fuel + 1, n => if n < 10 then 0 else log10Aux fuel (n / 10) + 1

/-- Floor of the base-10 logarithm of a positive natural number. -/
def log10N (n : ℕ) : ℕ := log10Aux n n

/-- Pad a character list on the left with a given character up to a
minimum width. -/
def padLeft (c : Char) (w : ℕ) (l : List Char) : List Char :=
  List.replicate (w - l.length) c ++ l

/-- Right-justify in a field of width w, padding with spaces on the left
(Python format alignment for numbers). -/
def rjustL (w : ℕ) (l : List Char) : List Char := padLeft ' ' w l

/-- Left-justify in a field of width w, padding with spaces on the right
(Python format default alignment for strings). -/
def ljustL (w : ℕ) (l : List Char) : List Char :=
  l ++ List.replicate (w - l.length) ' '

/-! ## Exact decimal rounding, modelling CPython float rendering -/

/-- Round a rational to the nearest integer, ties to even, as CPython's
float-to-decimal conversion does. -/
def roundHalfEven (q : ℚ) : ℤ :=
  if q - (⌊q⌋ : ℚ) < 1 / 2 then ⌊q⌋
  else if 1 / 2 < q - (⌊q⌋ : ℚ) then ⌊q⌋ + 1
  else if ⌊q⌋ % 2 = 0 then ⌊q⌋ else ⌊q⌋ + 1

/-- First candidate decimal exponent of a positive rational, from the
digit counts of its numerator and denominator. -/
def decExpQ0 (a : ℚ) : ℤ :=
  (log10N a.num.natAbs : ℤ) - (log10N a.den : ℤ) - 1

/-- Decimal exponent of a positive rational a: the unique e with
10 ^ e ≤ a < 10 ^ (e + 1). -/
def decExpQ (a : ℚ) : ℤ :=
  if (10 : ℚ) ^ (decExpQ0 a + 1) ≤ a then decExpQ0 a + 1 else decExpQ0 a

/-- Fixed-point rendering of a rational at a given precision, as Python
produces for a float with a precision-p fixed format (no width). -/
def pyFixedChars (q : ℚ) (prec : ℕ) : List Char :=
  (if q < 0 then ['-'] else []) ++
  natChars ((roundHalfEven (q * (10 : ℚ) ^ prec)).natAbs / 10 ^ prec) ++
  (if prec = 0 then []
   else
     '.' ::
       padLeft '0' prec
         (natChars ((roundHalfEven (q * (10 : ℚ) ^ prec)).natAbs % 10 ^ prec)))

/-- Digits part of a scientific significand: first digit, then a point and
the remaining prec digits (no point when prec = 0, as in Python). -/
def sciMantissa (m : ℕ) (prec : ℕ) : List Char :=
  let ds := natChars m
  if prec = 0 then ds.take 1 else ds.take 1 ++ '.' :: ds.drop 1

/-- Exponent part of a Python scientific rendering: the letter e, a sign,
and the exponent zero-padded to at least two digits. -/
def sciExpChars (e : ℤ) : List Char :=
  'e' :: (if e < 0 then '-' else '+') :: padLeft '0' 2 (natChars e.natAbs)

/-- Scientific rendering of a rational at a given precision, as Python
produces for a float with a precision-p scientific format (no width).
The significand is rounded to prec + 1 significant digits half-to-even;
a rounding carry (all nines) bumps the exponent. -/
def pySciChars (q : ℚ) (prec : ℕ) : List Char :=
  if q = 0 then sciMantissa 0 prec ++ padLeft '0' prec [] ++ sciExpChars 0
  else
    (if q < 0 then ['-'] else []) ++
    (if roundHalfEven (|q| * (10 : ℚ) ^ ((prec : ℤ) - decExpQ |q|)) =
        10 ^ (prec + 1) then
      sciMantissa (10 ^ prec) prec ++ sciExpChars (decExpQ |q| + 1)
    else
      sciMantissa
        (roundHalfEven (|q| * (10 : ℚ) ^ ((prec : ℤ) - decExpQ |q|))).natAbs
        prec ++ sciExpChars (decExpQ |q|))

/-! ## Python literal parsers -/

/-- Numeric value of a run of decimal digit characters, most significant
first. -/
def digitsToNat (l : List Char) : ℕ :=
  l.foldl (fun a c => a * 10 + (c.toNat - 48)) 0

/-- Strip whitespace from both ends, as Python str.strip does. -/
def stripChars (l : List Char) : List Char :=
  ((l.dropWhile Char.isWhitespace).reverse.dropWhile Char.isWhitespace).reverse

/-- Parse an optional sign, returning the sign as a rational and the rest. -/
def parseSign (l : List Char) : ℚ × List Char :=
  match l with
  | '+' :: t => (1, t)
  | '-' :: t => (-1, t)
  | _ => (1, l)

/-- Python float literal parser over pre-stripped input: optional sign,
digits with an optional point (at least one digit overall), and an
optional exponent part e/E, sign, digits.  The inf/nan spellings and
underscore separators accepted by CPython are not modelled; no caller in
the code under study feeds them. -/
def pyFloatL (l : List Char) : Option ℚ :=
  let (sgn, l) := parseSign l
  let ip := l.takeWhile Char.isDigit
  let l := l.dropWhile Char.isDigit
  let (fp, l) :=
    match l with
    | '.' :: t => (t.takeWhile Char.isDigit, t.dropWhile Char.isDigit)
    | _ => ([], l)
  if ip.isEmpty ∧ fp.isEmpty then none
  else
    let mant : ℚ := sgn * (digitsToNat (ip ++ fp) : ℚ) / (10 : ℚ) ^ fp.length
    match l with
    | [] => some mant
    | c :: t =>
      if c = 'e' ∨ c = 'E' then
        let (esgn, t) := parseSign t
        let ed := t.takeWhile Char.isDigit
        let t := t.dropWhile Char.isDigit
        if ed.isEmpty ∨ ¬t.isEmpty then none
        else
          if esgn < 0 then some (mant / (10 : ℚ) ^ digitsToNat ed)
          else some (mant * (10 : ℚ) ^ digitsToNat ed)
      else none

/-- Python int literal parser over pre-stripped input: optional sign and a
nonempty run of digits. -/
def pyIntL (l : List Char) : Option ℤ :=
  let (sgn, l) := parseSign l
  if l.isEmpty ∨ ¬(l.all Char.isDigit) then none
  else some ((if sgn < 0 then -1 else 1) * (digitsToNat l : ℤ))

/-- Embedding of str2float (tough/_helpers.py lines 404-411): try float(s);
on failure re-assemble taking the last four characters as the exponent
and the rest as the significand, as for simulator shorthand such as
0.0001-001.  A failure of the re-assembled parse is an uncaught
ValueError, modelled as none. -/
def str2float (l : List Char) : Option ℚ :=
  match pyFloatL l with
  | some v => some v
  | none =>
    pyFloatL (l.take (l.length - 4) ++ 'e' :: l.drop (l.length - 4))

/-! ## Record codec (write_record / to_str / read_record) -/

/-- Conversion kind of a Python format specifier as used by the codec. -/
inductive FmtKind
  | f | e | d | g | s
  deriving DecidableEq, Repr

/-- Column format descriptor, standing for a Python format string such as
a right-aligned width-10 precision-4 fixed conversion. -/
structure PyFmt where
  width : ℕ
  prec : Option ℕ
  kind : FmtKind
  alignRight : Bool
  deriving DecidableEq, Repr

/-- Values handled by to_str: Python None, str, int, float. -/
inductive FVal
  | vNone
  | vStr (s : List Char)
  | vInt (z : ℤ)
  | vFloat (q : ℚ)
  deriving DecidableEq, Repr

/-- Align a rendered field per the format's alignment (strings default
left, numbers default right; the source formats carry explicit
alignment). -/
def alignField (fmt : PyFmt) (l : List Char) : List Char :=
  if fmt.alignRight then rjustL fmt.width l else ljustL fmt.width l

/-- The fixed-with-fallback branch of to_str (tough/_helpers.py lines
330-340): format at the requested fixed precision right-justified to the
declared width; if the result is longer than the width, re-format with
the f conversion replaced by e at the same precision. -/
def toStrFFixed (q : ℚ) (width prec : ℕ) : List Char :=
  let tmp := rjustL width (pyFixedChars q prec)
  if width < tmp.length then rjustL width (pySciChars q prec) else tmp

/-- Embedding of to_str (tough/_helpers.py lines 325-361).  None becomes
the empty string; strings are formatted with the numeric conversion
letters stripped (truncating string precision, pad to width); numbers
with an f format and an explicit precision go through the
fixed-to-scientific fallback; other numeric formats apply directly.
Returns none where the source would raise (a d conversion applied to a
string) and for the branches whose output depends on CPython's
shortest-repr of IEEE doubles (an f format with no precision) or on the
general g conversion of a float, which no claim exercises. -/
def toStr (x : FVal) (fmt : PyFmt) : Option (List Char) :=
  let strCase : List Char → Option (List Char) := fun s =>
    if fmt.kind = FmtKind.d then none
    else some (alignField fmt (match fmt.prec with
      | some p => s.take p
      | none => s))
  let numCase : ℚ → Option (List Char) := fun q =>
    match fmt.kind, fmt.prec with
    | FmtKind.f, some p => some (toStrFFixed q fmt.width p)
    | FmtKind.f, none => none
    | FmtKind.e, p => some (rjustL fmt.width (pySciChars q (p.getD 6)))
    | FmtKind.g, _ => none
    | FmtKind.d, _ => none
    | FmtKind.s, _ => none
  match x with
  | FVal.vNone => strCase []
  | FVal.vStr s => strCase s
  | FVal.vFloat q => numCase q
  | FVal.vInt z =>
    match fmt.kind with
    | FmtKind.d =>
      some (alignField fmt ((if z < 0 then ['-'] else []) ++ natChars z.natAbs))
    | FmtKind.g =>
      some (alignField fmt ((if z < 0 then ['-'] else []) ++ natChars z.natAbs))
    | _ => numCase (z : ℚ)

/-- Split a list into consecutive chunks of size ncol (the last chunk may
be short), as write_record does in multi mode. -/
def chunkList (ncol : ℕ) : List FVal → List (List FVal)
  | [] => []
  | x :: xs =>
    if h : ncol = 0 then [] else
    (x :: xs).take ncol :: chunkList ncol ((x :: xs).drop ncol)
  termination_by l => l.length
  decreasing_by
    simp only [List.length_drop, List.length_cons]
    omega

/-- One emitted line: the concatenated fields padded (never truncated) to
a total width of 80 by the final width-80 format, plus the newline. -/
def padLine80 (content : List Char) : List Char :=
  ljustL 80 content ++ ['\n']

/-- One formatted line per chunk, as the multi-mode loop of
write_record. -/
def writeRecordLines (fmts : List PyFmt) : List (List FVal) →
    Option (List (List Char))
  | [] => some []
  | c :: cs => do
    let fields ← (c.zip fmts).mapM fun df => toStr df.1 df.2
    let rest ← writeRecordLines fmts cs
    some (padLine80 fields.flatten :: rest)

/-- Embedding of write_record (tough/_helpers.py lines 322-380).  In
single mode, one line of the zipped fields; in multi mode, one line per
ncol-sized chunk of the flat data (zip truncates each chunk to the
formats available).  Returns none when any field hits an unmodelled
to_str branch. -/
def writeRecord (data : List FVal) (fmts : List PyFmt) (multi : Bool) :
    Option (List (List Char)) :=
  if multi then
    if fmts.length = 0 then none
    else writeRecordLines fmts (chunkList fmts.length data)
  else
    ((data.zip fmts).mapM fun df => toStr df.1 df.2).map
      fun fields => [padLine80 fields.flatten]

/-- Token of a read format: a field width and a conversion kind (S keeps
whitespace, s strips, d parses an int, f and e parse floats through
str2float). -/
inductive RKind
  | rs | rS | rd | rf | re
  deriving DecidableEq, Repr

/-- Read token: width and kind. -/
structure RToken where
  width : ℕ
  kind : RKind
  deriving DecidableEq, Repr

/-- Typed value decoded from a field. -/
inductive RVal
  | rvStr (s : List Char)
  | rvInt (z : ℤ)
  | rvFloat (q : ℚ)
  deriving DecidableEq, Repr

/-- Decode one field substring per its token kind; an empty (stripped)
substring decodes to the absent value none, a malformed numeric field is
an error. -/
def readField (tmp : List Char) (k : RKind) : Except Unit (Option RVal) :=
  let t := if k = RKind.rS then tmp else stripChars tmp
  if t.isEmpty then Except.ok none
  else
    match k with
    | RKind.rs | RKind.rS => Except.ok (some (RVal.rvStr t))
    | RKind.rd =>
      match pyIntL t with
      | some z => Except.ok (some (RVal.rvInt z))
      | none => Except.error ()
    | RKind.rf | RKind.re =>
      match str2float t with
      | some q => Except.ok (some (RVal.rvFloat q))
      | none => Except.error ()

/-- Embedding of read_record (tough/_helpers.py lines 300-319): slice the
line left to right into the declared widths and decode each slice. -/
def readRecord (line : List Char) (tokens : List RToken) :
    Except Unit (List (Option RVal)) :=
  (tokens.foldlM (fun (st : ℕ × List (Option RVal)) (tok : RToken) => do
      let tmp := (line.drop st.1).take tok.width
      let v ← readField tmp tok.kind
      pure (st.1 + tok.width, st.2 ++ [v]))
    ((0 : ℕ), [])).map Prod.snd

/-! ## Parameter validator (_check_parameters, tough/_helpers.py 231-252) -/

/-- Python runtime categories relevant to the validator's isinstance
checks (numpy scalar and array types are folded into their Python
counterparts: an int32/int64 value is an integer, a float32/float64 a
float, an ndarray an array). -/
inductive PyVal
  | pNone
  | pBool (b : Bool)
  | pInt (z : ℤ)
  | pFloat (q : ℚ)
  | pStr (s : String)
  | pList
  | pTuple
  | pNdarray
  | pDict
  deriving DecidableEq, Repr

/-- Python type tags appearing in the str_to_dtype tuples. -/
inductive PyType
  | tInt | tFloat | tStr | tBool | tList | tTuple | tNdarray | tDict
  deriving DecidableEq, Repr

/-- Python isinstance for the types the validator uses.  A bool is an
instance of int (bool subclasses int in Python); an int is not an
instance of bool. -/
def pyIsinstance (v : PyVal) (t : PyType) : Bool :=
  match t, v with
  | PyType.tInt, PyVal.pInt _ => true
  | PyType.tInt, PyVal.pBool _ => true
  | PyType.tFloat, PyVal.pFloat _ => true
  | PyType.tStr, PyVal.pStr _ => true
  | PyType.tBool, PyVal.pBool _ => true
  | PyType.tList, PyVal.pList => true
  | PyType.tTuple, PyVal.pTuple => true
  | PyType.tNdarray, PyVal.pNdarray => true
  | PyType.tDict, PyVal.pDict => true
  | _, _ => false

/-- The str_to_dtype table (tough/_helpers.py lines 184-205), mapping a
semantic type tag to the tuple of accepted runtime types. -/
def strToDtype : List (String × List PyType) :=
  [("int", [PyType.tInt]),
   ("float", [PyType.tFloat]),
   ("str", [PyType.tStr]),
   ("bool", [PyType.tBool]),
   ("str_int", [PyType.tStr, PyType.tInt]),
   ("array_like", [PyType.tList, PyType.tTuple, PyType.tNdarray]),
   ("dict", [PyType.tDict]),
   ("scalar", [PyType.tInt, PyType.tFloat]),
   ("scalar_array_like",
    [PyType.tInt, PyType.tFloat, PyType.tList, PyType.tTuple,
     PyType.tNdarray]),
   ("str_array_like",
    [PyType.tStr, PyType.tList, PyType.tTuple, PyType.tNdarray])]

/-- Association list lookup, as Python dict indexing over a fixed
insertion order. -/
def alookup {α : Type} (k : String) : List (String × α) → Option α
  | [] => none
  | (k2, v) :: t => if k = k2 then some v else alookup k t

/-- Error raised by the modelled Python code. -/
inductive PyErr
  | typeError (key : String)
  | keyError
  | assertionError
  | valueError
  deriving DecidableEq, Repr

/-- Embedding of the inner _check_parameters closure (tough/_helpers.py
lines 231-252): iterate the parameter container in insertion order; an
unrecognized key logs a warning (modelled by collecting the key) and is
skipped; a recognized key whose value is neither None nor an instance of
the schema's type tuple raises a TypeError naming the key, aborting the
iteration and keeping the warnings logged so far; an unknown type tag is
the uncaught KeyError of the str_to_dtype lookup. -/
def checkParameters (inputTypes : List (String × String))
    (params : List (String × PyVal)) : List String × Option PyErr :=
  match params with
  | [] => ([], none)
  | (k, v) :: rest =>
    match alookup k inputTypes with
    | none =>
      let (w, e) := checkParameters inputTypes rest
      (k :: w, e)
    | some tag =>
      match alookup tag strToDtype with
      | none => ([], some PyErr.keyError)
      | some types =>
        if v = PyVal.pNone ∨ types.any (pyIsinstance v) then
          checkParameters inputTypes rest
        else ([], some (PyErr.typeError k))

/-! ## Mesh data model and face geometry (mesh/tough/_tough.py) -/

/-- Point or vector in 3-space with exact rational coordinates. -/
structure Vec3 where
  x : ℚ
  y : ℚ
  z : ℚ
  deriving DecidableEq, Repr

/-- Componentwise difference. -/
def v3Sub (a b : Vec3) : Vec3 := ⟨a.x - b.x, a.y - b.y, a.z - b.z⟩

/-- The source's index-shuffled cross product
a[[1,2,0]]*b[[2,0,1]] - a[[2,0,1]]*b[[1,2,0]] (the standard cross
product), componentwise. -/
def crossNp (a b : Vec3) : Vec3 :=
  ⟨a.y * b.z - a.z * b.y, a.z * b.x - a.x * b.z, a.x * b.y - a.y * b.x⟩

/-- Squared Euclidean length. -/
def quadrance (v : Vec3) : ℚ := v.x ^ 2 + v.y ^ 2 + v.z ^ 2

/-- Euclidean length, a real number. -/
noncomputable def normQ (v : Vec3) : ℝ := Real.sqrt ((quadrance v : ℚ) : ℝ)

/-- Vector in 3-space with real coordinates (unit normals and intersection
points are irrational in general). -/
structure Vec3R where
  x : ℝ
  y : ℝ
  z : ℝ

/-- Cast a rational vector to a real vector. -/
noncomputable def v3q2r (v : Vec3) : Vec3R := ⟨(v.x : ℝ), (v.y : ℝ), (v.z : ℝ)⟩

/-- Componentwise difference of real vectors. -/
noncomputable def v3rSub (a b : Vec3R) : Vec3R := ⟨a.x - b.x, a.y - b.y, a.z - b.z⟩

/-- Componentwise sum of real vectors. -/
noncomputable def v3rAdd (a b : Vec3R) : Vec3R := ⟨a.x + b.x, a.y + b.y, a.z + b.z⟩

/-- Scalar multiple of a real vector. -/
noncomputable def v3rSmul (c : ℝ) (v : Vec3R) : Vec3R := ⟨c * v.x, c * v.y, c * v.z⟩

/-- Dot product of real vectors (the source's custom row-wise _dot). -/
noncomputable def v3rDot (a b : Vec3R) : ℝ := a.x * b.x + a.y * b.y + a.z * b.z

/-- Euclidean length of a real vector. -/
noncomputable def normRv (v : Vec3R) : ℝ := Real.sqrt (v3rDot v v)

/-- Number of valid (nonnegative) vertex indices in a padded face row,
as (face >= 0).sum(axis=-1). -/
def validCountZ (row : List ℤ) : ℕ := (row.filter (fun j => 0 ≤ j)).length

/-- The first validCount entries of a padded face row, as f[:n]. -/
def faceVerts (row : List ℤ) : List ℤ := row.take (validCountZ row)

/-- Insert into a sorted list of integers. -/
def insertZ (a : ℤ) : List ℤ → List ℤ
  | [] => [a]
  | b :: t => if a ≤ b then a :: b :: t else b :: insertZ a t

/-- Ascending insertion sort of integers, modelling numpy.sort(..., axis=1)
applied to each stacked face row (tough/_tough.py line 220). -/
def sortInts : List ℤ → List ℤ
  | [] => []
  | a :: t => insertZ a (sortInts t)

/-- Classify the face slots of one cell into triangle rows and quad rows
in slot order, as the inner loop of _get_faces; a slot with no valid
vertex is skipped, and a valid-vertex count other than 3 or 4 is the
uncaught KeyError of numvert_to_face_type (modelled as none). -/
def cellSlotFaces : List (List ℤ) → Option (List (List ℤ) × List (List ℤ))
  | [] => some ([], [])
  | row :: t => do
    let (tr, qu) ← cellSlotFaces t
    if validCountZ row = 0 then some (tr, qu)
    else if validCountZ row = 3 then some (faceVerts row :: tr, qu)
    else if validCountZ row = 4 then some (tr, faceVerts row :: qu)
    else none

/-- Embedding of _get_faces' collection loop (tough/_tough.py lines
210-216): traverse cells in order, grouping triangle and quad face rows
separately and recording, per collected face, the owning cell index. -/
def collectFacesGo : ℕ → List (List (List ℤ)) →
    Option (List (List ℤ) × List ℕ × List (List ℤ) × List ℕ)
  | _, [] => some ([], [], [], [])
  | i, slots :: rest => do
    let (tr, qu) ← cellSlotFaces slots
    let (t, tc, q, qc) ← collectFacesGo (i + 1) rest
    some (tr ++ t, List.replicate tr.length i ++ tc,
          qu ++ q, List.replicate qu.length i ++ qc)

/-- Face collection over all cells, starting at cell index 0. -/
def collectFaces (faces : List (List (List ℤ))) :
    Option (List (List ℤ) × List ℕ × List (List ℤ) × List ℕ) :=
  collectFacesGo 0 faces

/-- Point of a mesh by index (out-of-range indices return a junk origin;
the source would index-error or wrap, and no claim touches that case). -/
def pointAt (points : List Vec3) (j : ℤ) : Vec3 := points.getD j.toNat ⟨0, 0, 0⟩

/-- Triangle normal of a face row through an index slice [a, b, c], as
_get_triangle_normals: the cross product of (v_b - v_a, v_c - v_a). -/
def triNormalSlice (points : List Vec3) (row : List ℤ) (a b c : ℕ) : Vec3 :=
  let va := pointAt points (row.getD a (-1))
  let vb := pointAt points (row.getD b (-1))
  let vc := pointAt points (row.getD c (-1))
  crossNp (v3Sub vb va) (v3Sub vc va)

/-- First-triangle normal (islice [0, 1, 2]). -/
def triNormal (points : List Vec3) (row : List ℤ) : Vec3 :=
  triNormalSlice points row 0 1 2

/-- Second-triangle normal of a quad (islice [0, 2, 3]). -/
def quadSecondNormal (points : List Vec3) (row : List ℤ) : Vec3 :=
  triNormalSlice points row 0 2 3

/-- Embedding of _get_face_normals_areas' flat stage (tough/_tough.py
lines 247-264) over the already-sorted triangle and quad rows: normals
are concatenated in dict order (triangles then quads), magnitudes taken,
normals normalized in place, and areas formed as half the sum of the
first magnitude and (for quads) the second-triangle magnitude.  When
there is no quad face the source hits an uncaught KeyError on
faces_dict, modelled as none. -/
noncomputable def faceNormalsAreasFlat (points : List Vec3)
    (tris quads : List (List ℤ)) : Option (List Vec3R × List ℝ) :=
  if quads.isEmpty then none
  else
    let normals := tris.map (triNormal points) ++ quads.map (triNormal points)
    let mags := normals.map normQ
    let units := normals.map (fun n => v3rSmul (normQ n)⁻¹ (v3q2r n))
    let second := List.replicate tris.length (0 : ℝ) ++
      quads.map (fun r => normQ (quadSecondNormal points r))
    some (units, (mags.zipWith (· + ·) second).map (fun a => a * (1 / 2)))

/-- Scatter flat per-face values back to per-cell lists by owning cell
index, as the reorganization loop of _get_face_normals_areas (lines
267-272).  Values land per cell in flat (triangles-then-quads) order. -/
def reorganize {α : Type} (idx : List ℕ) (vals : List α) (ncells : ℕ) :
    List (List α) :=
  (idx.zip vals).foldl (fun acc iv => acc.set iv.1 (acc.getD iv.1 [] ++ [iv.2]))
    (List.replicate ncells [])

/-! ## Connection derivation (_write_conne, tough/_tough.py 115-199) -/

/-- Embedding of the unique-connection loop (lines 138-164): visit cells
in increasing index order; for each face slot whose neighbor index is
valid (nonnegative) and not in the visited set, emit the triple
(cell, slot, neighbor); after a cell's slots the cell's own index joins
the visited set.  A cell with no valid neighbor only logs a warning. -/
def connePairsGo : List (List ℤ) → ℕ → List ℤ → List (ℕ × ℕ × ℤ)
  | [], _, _ => []
  | row :: rest, i, visited =>
    (if row.any (fun j => 0 ≤ j) then
      row.enum.filterMap (fun fj =>
        if 0 ≤ fj.2 ∧ ¬visited.contains fj.2 then some (i, fj.1, fj.2) else none)
    else []) ++ connePairsGo rest (i + 1) ((i : ℤ) :: visited)

/-- The emitted (cell, slot, neighbor) triples of a mesh's connectivity. -/
def connePairs (neighbors : List (List ℤ)) : List (ℕ × ℕ × ℤ) :=
  connePairsGo neighbors 0 []

/-- Anisotropy direction of a connection line (_isot, lines 294-303): the
1-based index of the single nonzero axis, if exactly one axis is
nonzero (argmax returns the first true slot), else 1. -/
def isotOf (line : Vec3) : ℤ :=
  let m1 := line.x ≠ 0
  let m2 := line.y ≠ 0
  let m3 := line.z ≠ 0
  let count := (if m1 then 1 else 0) + (if m2 then 1 else 0) +
    (if m3 then 1 else 0)
  if count = 1 then (if m1 then 1 else if m2 then 2 else 3) else 1

/-- Gravity-angle cosine (line 174): dot of the line vector with the
fixed vertical (0, 0, 1), over the line vector's length. -/
noncomputable def angleOf (line : Vec3) : ℝ :=
  ((line.x * 0 + line.y * 0 + line.z * 1 : ℚ) : ℝ) / normQ line

/-- The fixed near-zero nodal distance used for boundary elements. -/
def boundaryDistance : ℚ := 1 / 10 ^ 9

/-- Intersection of the line through a cell center with direction line
and the plane through ipoint with normal inormal
(_intersection_line_plane, lines 277-283). -/
noncomputable def intersectionLinePlane (center line : Vec3) (ipoint : Vec3)
    (inormal : Vec3R) : Vec3R :=
  let t := v3rDot (v3rSub (v3q2r ipoint) (v3q2r center)) inormal /
    v3rDot (v3q2r line) inormal
  v3rAdd (v3q2r center) (v3rSmul t (v3q2r line))

/-- Nodal distance of one side in line mode (lines 178-179): the
boundary-condition flag forces the fixed near-zero constant, else the
distance from the center to the line-plane intersection point. -/
noncomputable def nodalDistanceLine (b : ℚ) (center : Vec3) (fp : Vec3R) : ℝ :=
  if b ≠ 0 then ((boundaryDistance : ℚ) : ℝ) else normRv (v3rSub (v3q2r center) fp)

/-- Nodal distance of one side in orthogonal mode (_distance_point_plane,
lines 286-291): the boundary-condition flag forces the fixed near-zero
constant, else the absolute point-plane distance along the unit
normal. -/
noncomputable def distancePointPlane (center ipoint : Vec3) (inormal : Vec3R)
    (mask : ℚ) : ℝ :=
  if mask ≠ 0 then ((boundaryDistance : ℚ) : ℝ)
  else |v3rDot (v3rSub (v3q2r center) (v3q2r ipoint)) inormal|

/-! ## Block writers -/

/-- The 75-character ruler appended to each block keyword. -/
def rulerChars : List Char :=
  "----1----*----2----*----3----*----4----*----5----*----6----*----7----*----8".data

/-- Keyword line of a block: keyword, ruler, newline (the block
decorator, tough/_tough.py lines 41-59). -/
def blockHeader (kw : List Char) : List Char := kw ++ rulerChars ++ ['\n']

/-- Width-w string field with truncation, as a width-w precision-w string
format: truncate to w then pad (left-justified) to w. -/
def truncPad (w : ℕ) (s : List Char) : List Char := ljustL w (s.take w)

/-- Right-justified width-w scientific float field with precision p, as a
Python width-w precision-p e format. -/
def fmtE (width prec : ℕ) (q : ℚ) : List Char := rjustL width (pySciChars q prec)

/-- One ELEME record (tough/_tough.py lines 77-92): label (5, truncated),
three blank width-5 fields with the material in the fourth, the volume as
a width-10 precision-4 scientific field, two blank width-10 fields, and
the three center coordinates as width-10 precision-3 scientific
fields. -/
def elemeLine (label rock : List Char) (volume : ℚ) (center : Vec3) : List Char :=
  truncPad 5 label ++ rjustL 5 [] ++ rjustL 5 [] ++ rjustL 5 rock ++
  fmtE 10 4 volume ++ rjustL 10 [] ++ rjustL 10 [] ++
  fmtE 10 3 center.x ++ fmtE 10 3 center.y ++ fmtE 10 3 center.z ++ ['\n']

/-- One CONNE record (tough/_tough.py lines 185-199) over the numeric
values to be rendered: paired label (10, truncated), three blank width-5
fields, the anisotropy code as a width-5 general-format integer (plain
digits for the small codes emitted), the two nodal distances and the
area as width-10 precision-4 scientific fields, and the gravity cosine
as a width-10 precision-3 scientific field. -/
def conneLine (clabel : List Char) (isot : ℤ) (d1 d2 area beta : ℚ) : List Char :=
  truncPad 10 clabel ++ rjustL 5 [] ++ rjustL 5 [] ++ rjustL 5 [] ++
  rjustL 5 ((if isot < 0 then ['-'] else []) ++ natChars isot.natAbs) ++
  fmtE 10 4 d1 ++ fmtE 10 4 d2 ++ fmtE 10 4 area ++ fmtE 10 3 beta ++ ['\n']

/-- Mesh as consumed by the writer, with the per-shape blocks already
concatenated (the source concatenates mesh.centers, mesh.labels,
mesh.volumes, mesh.connectivity and mesh.faces up front) and the
material names already resolved by _get_rocks. -/
structure Mesh where
  points : List Vec3
  nodes : List Vec3
  labels : List (List Char)
  volumes : List ℚ
  rocks : List (List Char)
  bc : Option (List ℚ)
  connectivity : List (List ℤ)
  faces : List (List (List ℤ))

/-- Number of cells. -/
def nCells (m : Mesh) : ℕ := m.labels.length

/-- Boundary-condition array: the cell_data entry when present, else
zeros (tough/_tough.py lines 131-135). -/
def bcOf (m : Mesh) : List ℚ :=
  m.bc.getD (List.replicate (nCells m) 0)

/-- Volumes after the time-independent Dirichlet boundary scaling
(tough/_tough.py lines 72-74): a truthy flag multiplies the volume by
1.0e50, others stay unchanged. -/
def effVolumes (m : Mesh) : List ℚ :=
  match m.bc with
  | none => m.volumes
  | some bc => m.volumes.zipWith (fun v b => v * (if b ≠ 0 then (10 : ℚ) ^ 50 else 1)) bc

/-- The ELEME block: keyword line, one record per cell, blank footer
line (_write_eleme). -/
def writeEleme (m : Mesh) : List (List Char) :=
  blockHeader "ELEME".data ::
  ((m.labels.zip (m.rocks.zip ((effVolumes m).zip m.nodes))).map fun lrvn =>
    elemeLine lrvn.1 lrvn.2.1 lrvn.2.2.1 lrvn.2.2.2) ++ [['\n']]

/-- Derived quantities of one connection record.  The nodal distances,
area and angle are exact reals; their final text rendering applies the
fixed conne formats (verified over rationals in conneLine) to these
values. -/
structure ConneRecord where
  clabel : List Char
  isot : ℤ
  d1 : ℝ
  d2 : ℝ
  area : ℝ
  beta : ℝ

/-- Build the connection record of one emitted (cell, slot, neighbor)
triple from the mesh arrays and the reorganized per-cell face normals
and areas, following lines 143-159 and 166-182 of tough/_tough.py. -/
noncomputable def mkConneRecord (m : Mesh) (faceNormals : List (List Vec3R))
    (faceAreas : List (List ℝ)) (mode : String) (p : ℕ × ℕ × ℤ) : ConneRecord :=
  let i := p.1
  let iface := p.2.1
  let j := p.2.2.toNat
  let c1 := m.nodes.getD i ⟨0, 0, 0⟩
  let c2 := m.nodes.getD j ⟨0, 0, 0⟩
  let row := (m.faces.getD i []).getD iface []
  let ipoint := pointAt m.points ((row.filter (fun v => 0 ≤ v)).headD (-1))
  let inormal := (faceNormals.getD i []).getD iface ⟨0, 0, 0⟩
  let area := (faceAreas.getD i []).getD iface 0
  let b1 := (bcOf m).getD i 0
  let b2 := (bcOf m).getD j 0
  let line := v3Sub c2 c1
  let d1 :=
    if mode = "line" then
      nodalDistanceLine b1 c1 (intersectionLinePlane c1 line ipoint inormal)
    else distancePointPlane c1 ipoint inormal b1
  let d2 :=
    if mode = "line" then
      nodalDistanceLine b2 c2 (intersectionLinePlane c1 line ipoint inormal)
    else distancePointPlane c2 ipoint inormal b2
  { clabel := truncPad 5 (m.labels.getD i []) ++ truncPad 5 (m.labels.getD j [])
    isot := isotOf line
    d1 := d1
    d2 := d2
    area := area
    beta := angleOf line }

/-- The derived connection records of a mesh (none where the face
pipeline raises). -/
noncomputable def conneRecords (m : Mesh) (mode : String) :
    Option (List ConneRecord) := do
  let (tris, tcells, quads, qcells) ← collectFaces m.faces
  let (units, areas) ← faceNormalsAreasFlat m.points (tris.map sortInts)
    (quads.map sortInts)
  let cellIdx := tcells ++ qcells
  let faceNormals := reorganize cellIdx units (nCells m)
  let faceAreas := reorganize cellIdx areas (nCells m)
  some ((connePairs m.connectivity).map
    (mkConneRecord m faceNormals faceAreas mode))

/-- Embedding of write (tough/_tough.py lines 28-38): the first statement
asserts the nodal-distance mode is line or orthogonal — any other mode
raises AssertionError before anything is derived or emitted.  On the
valid modes the ELEME block lines and the derived connection records are
produced (a face-pipeline KeyError propagates). -/
noncomputable def writeTough (nodalDistance : String) (m : Mesh) :
    Except PyErr (List (List Char) × List ConneRecord) :=
  if nodalDistance = "line" ∨ nodalDistance = "orthogonal" then
    match conneRecords m nodalDistance with
    | some recs => Except.ok (writeEleme m, recs)
    | none => Except.error PyErr.keyError
  else Except.error PyErr.assertionError

/-! ## Derived definitions used by the verification -/

/-- Magnitude hypothesis under which Python scientific notation has a
two-digit exponent. -/
def sciRange (q : ℚ) : Prop :=
  q = 0 ∨ ((10 : ℚ) ^ (-99 : ℤ) ≤ |q| ∧ |q| < (10 : ℚ) ^ (99 : ℤ))

/-- Number of emitted records joining cells a and b, in either
orientation. -/
def countPair (l : List (ℕ × ℕ × ℤ)) (a b : ℕ) : ℕ :=
  (l.filter (fun t =>
    (t.1 = a ∧ t.2.2 = (b : ℤ)) ∨ (t.1 = b ∧ t.2.2 = (a : ℤ)))).length

/-- Reference form of the emitted triples: slot-ordered triples per cell,
a cell i emitting exactly its valid neighbors of index at least i. -/
def emittedFrom (i : ℕ) : List (List ℤ) → List (ℕ × ℕ × ℤ)
  | [] => []
  | row :: rest =>
    (List.enumFrom 0 row).filterMap (fun fj =>
      if 0 ≤ fj.2 ∧ (i : ℤ) ≤ fj.2 then some (i, fj.1, fj.2) else none) ++
    emittedFrom (i + 1) rest

/-- The triangle rows of all slots, in traversal order. -/
def triSlots (faces : List (List (List ℤ))) : List (List ℤ) :=
  faces.flatMap (fun slots => slots.filterMap (fun row =>
    if validCountZ row = 3 then some (faceVerts row) else none))

/-- The quad rows of all slots, in traversal order. -/
def quadSlots (faces : List (List (List ℤ))) : List (List ℤ) :=
  faces.flatMap (fun slots => slots.filterMap (fun row =>
    if validCountZ row = 4 then some (faceVerts row) else none))

/-- The quad-area formula as the specification words it: half the sum of
the magnitudes of the two triangle cross products taken on the
vertices v0, v1, v2, v3 in the order given. -/
noncomputable def quadAreaSpec (points : List Vec3) (row : List ℤ) : ℝ :=
  (1 / 2) * (normQ (triNormalSlice points row 0 1 2) +
    normQ (triNormalSlice points row 0 2 3))

/-- A trivial mesh used to exercise the writer's mode check. -/
def emptyMesh : Mesh := ⟨[], [], [], [], [], none, [], []⟩

/-! ## Length lemmas for the decimal rendering -/

theorem padLeft_length (c : Char) (w : ℕ) (l : List Char) :
    (padLeft c w l).length = max w l.length := by
  simp [padLeft]
  omega

theorem rjustL_length (w : ℕ) (l : List Char) :
    (rjustL w l).length = max w l.length := padLeft_length _ _ _

theorem ljustL_length (w : ℕ) (l : List Char) :
    (ljustL w l).length = max w l.length := by
  simp [ljustL]
  omega

theorem log10Aux_spec : ∀ fuel n, 1 ≤ n → n ≤ fuel →
    10 ^ log10Aux fuel n ≤ n ∧ n < 10 ^ (log10Aux fuel n + 1) := by
  intro fuel
  induction fuel with
  | zero => intro n h1 h2; omega
  | succ f ih =>
    intro n h1 h2
    by_cases hlt : n < 10
    · simp [log10Aux, hlt]; omega
    · have hm1 : 1 ≤ n / 10 := by omega
      have hm2 : n / 10 ≤ f := by
        have := Nat.div_lt_self (by omega : 0 < n) (by omega : 1 < 10)
        omega
      have ihm := ih (n / 10) hm1 hm2
      simp only [log10Aux, hlt, if_false]
      constructor
      · calc 10 ^ (log10Aux f (n / 10) + 1) = 10 ^ log10Aux f (n / 10) * 10 := by ring
        _ ≤ n / 10 * 10 := by exact Nat.mul_le_mul_right 10 ihm.1
        _ ≤ n := by omega
      · calc n < (n / 10 + 1) * 10 := by omega
        _ ≤ 10 ^ (log10Aux f (n / 10) + 1) * 10 := by
              exact Nat.mul_le_mul_right 10 (by omega)
        _ = 10 ^ (log10Aux f (n / 10) + 1 + 1) := by ring

theorem log10N_spec (n : ℕ) (h1 : 1 ≤ n) :
    10 ^ log10N n ≤ n ∧ n < 10 ^ (log10N n + 1) :=
  log10Aux_spec n n h1 le_rfl

theorem natDigitsAux_zero : ∀ fuel, natDigitsAux fuel 0 = [] := by
  intro fuel
  cases fuel <;> simp [natDigitsAux]

theorem natDigitsAux_length : ∀ fuel n, 1 ≤ n → n ≤ fuel →
    (natDigitsAux fuel n).length = log10Aux fuel n + 1 := by
  intro fuel
  induction fuel with
  | zero => intro n h1 h2; omega
  | succ f ih =>
    intro n h1 h2
    have hne : ¬n = 0 := by omega
    by_cases hlt : n < 10
    · have hz : n / 10 = 0 := by omega
      simp [natDigitsAux, log10Aux, hne, hlt, hz, natDigitsAux_zero]
    · have hm1 : 1 ≤ n / 10 := by omega
      have hm2 : n / 10 ≤ f := by
        have := Nat.div_lt_self (by omega : 0 < n) (by omega : 1 < 10)
        omega
      simp [natDigitsAux, log10Aux, hne, hlt, ih (n / 10) hm1 hm2]

theorem natChars_length (n : ℕ) (h1 : 1 ≤ n) :
    (natChars n).length = log10N n + 1 := by
  have hne : ¬n = 0 := by omega
  simp [natChars, hne, natDigitsL, natDigitsAux_length n n h1 le_rfl, log10N]

/-- The digit-string length of a number between two consecutive powers of
ten. -/
theorem natChars_length_eq (n k : ℕ) (hlo : 10 ^ k ≤ n) (hhi : n < 10 ^ (k + 1)) :
    (natChars n).length = k + 1 := by
  have h1 : 1 ≤ n := le_trans (Nat.one_le_pow _ _ (by omega)) hlo
  rw [natChars_length n h1]
  have hs := log10N_spec n h1
  have hub : log10N n < k + 1 := by
    rw [← Nat.pow_lt_pow_iff_right (by omega : 1 < 10)]
    exact lt_of_le_of_lt hs.1 hhi
  have hlb : k < log10N n + 1 := by
    rw [← Nat.pow_lt_pow_iff_right (by omega : 1 < 10)]
    exact lt_of_le_of_lt hlo hs.2
  omega

theorem natChars_length_le (n k : ℕ) (hhi : n < 10 ^ (k + 1)) :
    (natChars n).length ≤ k + 1 := by
  by_cases h1 : 1 ≤ n
  · rw [natChars_length n h1]
    have hs := log10N_spec n h1
    have : log10N n < k + 1 := by
      rw [← Nat.pow_lt_pow_iff_right (by omega : 1 < 10)]
      exact lt_of_le_of_lt hs.1 hhi
    omega
  · have : n = 0 := by omega
    subst this
    simp [natChars]

/-! ## Bounds for round half to even -/

theorem roundHalfEven_bounds (q : ℚ) :
    ⌊q⌋ ≤ roundHalfEven q ∧ roundHalfEven q ≤ ⌊q⌋ + 1 := by
  unfold roundHalfEven
  split_ifs <;> omega

theorem roundHalfEven_ge (q : ℚ) (k : ℤ) (h : (k : ℚ) ≤ q) :
    k ≤ roundHalfEven q := by
  have h1 := (roundHalfEven_bounds q).1
  have h2 : k ≤ ⌊q⌋ := Int.le_floor.mpr h
  omega

theorem roundHalfEven_lt (q : ℚ) (k : ℤ) (h : q < (k : ℚ)) :
    roundHalfEven q ≤ k := by
  have h1 := (roundHalfEven_bounds q).2
  have h2 : ⌊q⌋ < k := Int.floor_lt.mpr h
  omega

/-! ## Characterization of the decimal exponent -/

theorem decExpQ_spec (a : ℚ) (ha : 0 < a) :
    (10 : ℚ) ^ decExpQ a ≤ a ∧ a < (10 : ℚ) ^ (decExpQ a + 1) := by
  have hnum : 0 < a.num := Rat.num_pos.mpr ha
  have hp1 : 1 ≤ a.num.natAbs := by omega
  have hd1 : 1 ≤ a.den := a.den_pos
  have hlp := log10N_spec a.num.natAbs hp1
  have hld := log10N_spec a.den hd1
  have hd0 : ((a.den : ℚ)) ≠ 0 := by positivity
  have key : ((a.num.natAbs : ℚ)) = a * a.den := by
    have h1 := Rat.num_div_den a
    have h2 : ((a.num : ℚ)) = a * a.den := by
      rw [div_eq_iff hd0] at h1
      exact h1
    have h3 : ((a.num.natAbs : ℚ)) = ((a.num : ℚ)) := by
      rw [Int.cast_natAbs]
      exact_mod_cast abs_of_nonneg (le_of_lt hnum)
    rw [h3]
    exact h2
  set lp := log10N a.num.natAbs with hlpdef
  set ld := log10N a.den with hlddef
  set e0 : ℤ := (lp : ℤ) - (ld : ℤ) - 1 with he0
  have hten : (10 : ℚ) ≠ 0 := by norm_num
  have hzlo : (10 : ℚ) ^ (e0 : ℤ) < a := by
    have c1 : ((10 : ℚ)) ^ (lp : ℤ) ≤ (a.num.natAbs : ℚ) := by
      rw [zpow_natCast]
      exact_mod_cast hlp.1
    have c2 : ((a.den : ℚ)) < (10 : ℚ) ^ ((ld : ℤ) + 1) := by
      have : ((ld : ℤ) + 1) = ((ld + 1 : ℕ) : ℤ) := by push_cast; ring
      rw [this, zpow_natCast]
      exact_mod_cast hld.2
    have step : (10 : ℚ) ^ (e0 : ℤ) * a.den < (10 : ℚ) ^ (lp : ℤ) := by
      calc (10 : ℚ) ^ (e0 : ℤ) * a.den
          < (10 : ℚ) ^ (e0 : ℤ) * (10 : ℚ) ^ ((ld : ℤ) + 1) := by
            exact mul_lt_mul_of_pos_left c2 (by positivity)
        _ = (10 : ℚ) ^ (lp : ℤ) := by
            rw [← zpow_add₀ hten]
            congr 1
            omega
    have : (10 : ℚ) ^ (e0 : ℤ) * a.den < a * a.den := by
      calc (10 : ℚ) ^ (e0 : ℤ) * a.den < (10 : ℚ) ^ (lp : ℤ) := step
        _ ≤ (a.num.natAbs : ℚ) := c1
        _ = a * a.den := key
    exact lt_of_mul_lt_mul_right this (by positivity)
  have hzhi : a < (10 : ℚ) ^ (e0 + 2) := by
    have c1 : ((a.num.natAbs : ℚ)) < (10 : ℚ) ^ ((lp : ℤ) + 1) := by
      have : ((lp : ℤ) + 1) = ((lp + 1 : ℕ) : ℤ) := by push_cast; ring
      rw [this, zpow_natCast]
      exact_mod_cast hlp.2
    have c2 : (10 : ℚ) ^ (ld : ℤ) ≤ ((a.den : ℚ)) := by
      rw [zpow_natCast]
      exact_mod_cast hld.1
    have step : a * a.den < (10 : ℚ) ^ (e0 + 2) * a.den := by
      calc a * a.den = (a.num.natAbs : ℚ) := key.symm
        _ < (10 : ℚ) ^ ((lp : ℤ) + 1) := c1
        _ = (10 : ℚ) ^ (e0 + 2) * (10 : ℚ) ^ (ld : ℤ) := by
            rw [← zpow_add₀ hten]
            congr 1
            omega
        _ ≤ (10 : ℚ) ^ (e0 + 2) * a.den := by
            exact mul_le_mul_of_nonneg_left c2 (by positivity)
    exact lt_of_mul_lt_mul_right step (by positivity)
  have he0q : decExpQ0 a = e0 := by
    rw [decExpQ0, ← hlpdef, ← hlddef, he0]
  unfold decExpQ
  rw [he0q]
  split_ifs with hcase
  · exact ⟨hcase, by convert hzhi using 2; omega⟩
  · exact ⟨le_of_lt hzlo, by simpa using not_le.mp hcase⟩

/-! ## Length of the scientific rendering -/


theorem sciExpChars_length (e : ℤ) (h : e.natAbs ≤ 99) :
    (sciExpChars e).length = 4 := by
  have hl : (natChars e.natAbs).length ≤ 2 := by
    apply natChars_length_le e.natAbs 1
    omega
  simp [sciExpChars, padLeft_length]
  omega

theorem sciMantissa_length (m : ℕ) (prec : ℕ) (hp : 1 ≤ prec)
    (hlo : 10 ^ prec ≤ m) (hhi : m < 10 ^ (prec + 1)) :
    (sciMantissa m prec).length = prec + 2 := by
  have hlen := natChars_length_eq m prec hlo hhi
  have hne : ¬prec = 0 := by omega
  simp [sciMantissa, hne, hlen]
  omega

/-- Cast identity between integer powers of ten and rational zpow. -/
theorem zpowTenCast (n : ℕ) : (((10 : ℤ) ^ n : ℤ) : ℚ) = (10 : ℚ) ^ (n : ℤ) := by
  push_cast
  rw [zpow_natCast]

theorem pySciChars_length (q : ℚ) (prec : ℕ) (hp : 1 ≤ prec)
    (hq : sciRange q) :
    (pySciChars q prec).length = (if q < 0 then 1 else 0) + (prec + 6) := by
  rcases hq with hq | ⟨hlo, hhi⟩
  · subst hq
    have h0 : ¬(0 : ℚ) < 0 := lt_irrefl 0
    have hne : ¬prec = 0 := by omega
    simp [pySciChars, sciMantissa, sciExpChars, natChars, natDigitsL,
      natDigitsAux, padLeft_length, h0, hne]
  · have haq : 0 < |q| := lt_of_lt_of_le (by positivity) hlo
    have hq0 : ¬q = 0 := by
      intro h
      rw [h] at haq
      simp at haq
    have hspec := decExpQ_spec |q| haq
    have hten : (10 : ℚ) ≠ 0 := by norm_num
    rw [pySciChars, if_neg hq0]
    set e := decExpQ |q| with he
    have he_hi : e ≤ 98 := by
      have h1 : (10 : ℚ) ^ e < (10 : ℚ) ^ (99 : ℤ) := lt_of_le_of_lt hspec.1 hhi
      have h2 := (zpow_lt_zpow_iff_right₀ (by norm_num : (1 : ℚ) < 10)).mp h1
      omega
    have he_lo : -99 ≤ e := by
      have h1 : (10 : ℚ) ^ (-99 : ℤ) < (10 : ℚ) ^ (e + 1) :=
        lt_of_le_of_lt hlo hspec.2
      have h2 := (zpow_lt_zpow_iff_right₀ (by norm_num : (1 : ℚ) < 10)).mp h1
      omega
    set y := |q| * (10 : ℚ) ^ ((prec : ℤ) - e) with hy
    have hypos : (0 : ℚ) < (10 : ℚ) ^ ((prec : ℤ) - e) := by positivity
    have hy_lo : (10 : ℚ) ^ ((prec : ℤ)) ≤ y := by
      calc (10 : ℚ) ^ ((prec : ℤ)) = (10 : ℚ) ^ e * (10 : ℚ) ^ ((prec : ℤ) - e) := by
            rw [← zpow_add₀ hten]
            congr 1
            ring
        _ ≤ |q| * (10 : ℚ) ^ ((prec : ℤ) - e) :=
            mul_le_mul_of_nonneg_right hspec.1 (le_of_lt hypos)
    have hy_hi : y < (10 : ℚ) ^ ((prec : ℤ) + 1) := by
      calc y < (10 : ℚ) ^ (e + 1) * (10 : ℚ) ^ ((prec : ℤ) - e) :=
            mul_lt_mul_of_pos_right hspec.2 hypos
        _ = (10 : ℚ) ^ ((prec : ℤ) + 1) := by
            rw [← zpow_add₀ hten]
            congr 1
            ring
    set m := roundHalfEven y with hm
    have hm_lo : (10 : ℤ) ^ prec ≤ m := by
      apply roundHalfEven_ge
      rw [zpowTenCast]
      exact hy_lo
    have hexpcast : (((prec + 1 : ℕ)) : ℤ) = (prec : ℤ) + 1 := by omega
    have hm_hi : m ≤ (10 : ℤ) ^ (prec + 1) := by
      apply roundHalfEven_lt
      rw [zpowTenCast, hexpcast]
      exact hy_hi
    clear_value m
    by_cases hcarry : m = 10 ^ (prec + 1)
    · have hmant := sciMantissa_length (10 ^ prec) prec hp le_rfl
        (Nat.pow_lt_pow_succ (by omega))
      have hexp : (sciExpChars (e + 1)).length = 4 := by
        apply sciExpChars_length
        omega
      rw [if_pos hcarry, List.length_append, List.length_append, hmant, hexp]
      by_cases hqn : q < 0
      · simp only [if_pos hqn, List.length_cons, List.length_nil]
      · simp only [if_neg hqn, List.length_nil]
    · have hm_pos : 0 < m := lt_of_lt_of_le (by positivity) hm_lo
      have hcastpow : ∀ k : ℕ, ((10 ^ k : ℕ) : ℤ) = (10 : ℤ) ^ k := by
        intro k
        rw [Nat.cast_pow]
        norm_num
      have hnat_lo : 10 ^ prec ≤ m.natAbs := by
        have h1 : ((10 ^ prec : ℕ) : ℤ) ≤ (m.natAbs : ℤ) := by
          rw [Int.natAbs_of_nonneg (le_of_lt hm_pos), hcastpow]
          exact hm_lo
        exact_mod_cast h1
      have hnat_hi : m.natAbs < 10 ^ (prec + 1) := by
        have hlt : m < (10 : ℤ) ^ (prec + 1) := lt_of_le_of_ne hm_hi hcarry
        have h1 : (m.natAbs : ℤ) < ((10 ^ (prec + 1) : ℕ) : ℤ) := by
          rw [Int.natAbs_of_nonneg (le_of_lt hm_pos), hcastpow]
          exact hlt
        exact_mod_cast h1
      have hmant := sciMantissa_length m.natAbs prec hp hnat_lo hnat_hi
      have hexp : (sciExpChars e).length = 4 := by
        apply sciExpChars_length
        omega
      rw [if_neg hcarry, List.length_append, List.length_append, hmant, hexp]
      by_cases hqn : q < 0
      · simp only [if_pos hqn, List.length_cons, List.length_nil]
      · simp only [if_neg hqn, List.length_nil]

/-! ## Field and line widths -/

theorem truncPad_length (w : ℕ) (s : List Char) : (truncPad w s).length = w := by
  rw [truncPad, ljustL_length, List.length_take]
  omega

/-- A right-justified scientific field of width p + 6 holding a
nonnegative in-range value is exactly full. -/
theorem fmtE_length_eq (q : ℚ) (w p : ℕ) (hp : 1 ≤ p) (h0 : 0 ≤ q)
    (hr : sciRange q) (hw : w = p + 6) : (fmtE w p q).length = w := by
  rw [fmtE, rjustL_length, pySciChars_length q p hp hr]
  have hn : ¬q < 0 := not_lt.mpr h0
  simp [hn]
  omega

/-- A right-justified scientific field of width at least p + 7 holding an
in-range value of either sign is exactly its declared width. -/
theorem fmtE_length_wide (q : ℚ) (w p : ℕ) (hp : 1 ≤ p) (hr : sciRange q)
    (hw : p + 7 ≤ w) : (fmtE w p q).length = w := by
  rw [fmtE, rjustL_length, pySciChars_length q p hp hr]
  split_ifs <;> omega

/-- An ELEME record line is exactly 80 columns plus the newline: the
label is truncated and padded to 5, the material fits its width-5 field,
the nonnegative volume fills its width-10 precision-4 scientific field,
and each coordinate (either sign) fills its width-10 precision-3
scientific field. -/
theorem elemeLine_length (label rock : List Char) (volume : ℚ) (c : Vec3)
    (hrock : rock.length ≤ 5) (hvol : 0 ≤ volume) (hvr : sciRange volume)
    (hx : sciRange c.x) (hy : sciRange c.y) (hz : sciRange c.z) :
    (elemeLine label rock volume c).length = 81 := by
  have h1 := truncPad_length 5 label
  have h2 := fmtE_length_eq volume 10 4 (by omega) hvol hvr rfl
  have h3 := fmtE_length_wide c.x 10 3 (by omega) hx (by omega)
  have h4 := fmtE_length_wide c.y 10 3 (by omega) hy (by omega)
  have h5 := fmtE_length_wide c.z 10 3 (by omega) hz (by omega)
  simp only [elemeLine, List.length_append, h1, h2, h3, h4, h5,
    rjustL_length, List.length_cons, List.length_nil]
  simp
  omega

/-- A CONNE record line is exactly 70 columns plus the newline: paired
label truncated to 10, three blank width-5 fields, the small nonnegative
anisotropy code right-justified in width 5, the nonnegative distances
and area filling their width-10 precision-4 scientific fields, and the
angle cosine (either sign) filling its width-10 precision-3 scientific
field. -/
theorem conneLine_length (clabel : List Char) (isot : ℤ) (d1 d2 area beta : ℚ)
    (hisot0 : 0 ≤ isot) (hisot : isot < 100000)
    (hd1s : 0 ≤ d1) (hd1 : sciRange d1) (hd2s : 0 ≤ d2) (hd2 : sciRange d2)
    (has : 0 ≤ area) (ha : sciRange area) (hb : sciRange beta) :
    (conneLine clabel isot d1 d2 area beta).length = 71 := by
  have h1 := truncPad_length 10 clabel
  have h2 := fmtE_length_eq d1 10 4 (by omega) hd1s hd1 rfl
  have h3 := fmtE_length_eq d2 10 4 (by omega) hd2s hd2 rfl
  have h4 := fmtE_length_eq area 10 4 (by omega) has ha rfl
  have h5 := fmtE_length_wide beta 10 3 (by omega) hb (by omega)
  have hneg : ¬isot < 0 := not_lt.mpr hisot0
  have hdig : (natChars isot.natAbs).length ≤ 5 := by
    apply natChars_length_le isot.natAbs 4
    omega
  simp only [conneLine, List.length_append, h1, h2, h3, h4, h5, hneg,
    if_false, rjustL_length, List.length_cons, List.length_nil,
    List.nil_append]
  simp
  omega

theorem padLine80_length (content : List Char) :
    (padLine80 content).length = max 80 content.length + 1 := by
  simp [padLine80, ljustL_length]

/-- Every line emitted by write_record is the width-80 padding of its
joined fields followed by a newline; the final format pads but never
truncates, so a line is at least 81 characters and exactly 81 when the
fields fit. -/
theorem writeRecordLines_shape (fmts : List PyFmt) :
    ∀ cs out, writeRecordLines fmts cs = some out →
      ∀ l ∈ out, ∃ c : List Char, l = padLine80 c := by
  intro cs
  induction cs with
  | nil =>
    intro out h l hl
    rw [writeRecordLines] at h
    cases h
    simp at hl
  | cons c cs ih =>
    intro out h l hl
    rw [writeRecordLines] at h
    rcases hf : (c.zip fmts).mapM fun df => toStr df.1 df.2 with _ | fields
    · rw [hf] at h
      cases h
    · rw [hf] at h
      rcases hr : writeRecordLines fmts cs with _ | rest
      · rw [hr] at h
        cases h
      · rw [hr] at h
        simp at h
        rw [← h] at hl
        rcases List.mem_cons.mp hl with hl1 | hl1
        · exact ⟨fields.flatten, hl1⟩
        · exact ih rest hr l hl1

/-- Every line emitted by write_record is the width-80 padding of its
joined fields followed by a newline; the final format pads but never
truncates, so a line is at least 81 characters and exactly 81 when the
fields fit. -/
theorem writeRecord_line_shape (data : List FVal) (fmts : List PyFmt)
    (multi : Bool) (out : List (List Char))
    (h : writeRecord data fmts multi = some out) :
    ∀ l ∈ out, ∃ c : List Char, l = padLine80 c := by
  rcases multi with _ | _
  · rw [writeRecord] at h
    simp only [Bool.false_eq_true, if_false] at h
    rcases hm : (data.zip fmts).mapM fun df => toStr df.1 df.2 with _ | fields
    · rw [hm] at h
      simp at h
    · rw [hm] at h
      simp at h
      intro l hl
      rw [← h] at hl
      simp at hl
      exact ⟨fields.flatten, hl⟩
  · rw [writeRecord] at h
    simp only [if_true] at h
    split_ifs at h
    exact writeRecordLines_shape fmts _ out h

/-! ## The fixed-to-scientific fallback (to_str) -/

/-- When the fixed rendering of a nonnegative value overflows its field,
the value is at least 1 (the overflow comes from integer digits, given
that the width is at least precision + 6). -/
theorem overflow_value_ge_one (q : ℚ) (width prec : ℕ) (h0 : 0 ≤ q)
    (hp : 1 ≤ prec) (hwp : prec + 6 ≤ width)
    (hover : width < (rjustL width (pyFixedChars q prec)).length) :
    1 ≤ q := by
  rw [rjustL_length] at hover
  have hflen : width < (pyFixedChars q prec).length := by omega
  have hneg : ¬q < 0 := not_lt.mpr h0
  have hpne : ¬prec = 0 := by omega
  set n := roundHalfEven (q * (10 : ℚ) ^ prec) with hn
  have hfp : (natChars (n.natAbs % 10 ^ prec)).length ≤ prec := by
    have h1 : n.natAbs % 10 ^ prec < 10 ^ prec :=
      Nat.mod_lt _ (by positivity)
    have h2 := natChars_length_le (n.natAbs % 10 ^ prec) (prec - 1)
      (by rw [Nat.sub_add_cancel hp]; exact h1)
    omega
  have hlen : (pyFixedChars q prec).length =
      (natChars (n.natAbs / 10 ^ prec)).length + 1 + prec := by
    rw [pyFixedChars]
    simp only [hneg, if_false, hpne, List.nil_append, List.length_append,
      List.length_cons, padLeft_length, ← hn]
    omega
  have hip : 6 ≤ (natChars (n.natAbs / 10 ^ prec)).length := by omega
  have hip_ge : 10 ^ 5 ≤ n.natAbs / 10 ^ prec := by
    by_contra hc
    have := natChars_length_le (n.natAbs / 10 ^ prec) 4 (by omega)
    omega
  have hnat_ge : 10 ^ 5 * 10 ^ prec ≤ n.natAbs :=
    (Nat.le_div_iff_mul_le (by positivity)).mp hip_ge
  have hy0 : (0 : ℚ) ≤ q * (10 : ℚ) ^ prec := by positivity
  have hn0 : 0 ≤ n := by
    rw [hn]
    apply roundHalfEven_ge
    exact_mod_cast hy0
  have hnz : (10 : ℤ) ^ 5 * 10 ^ prec ≤ n := by
    have h1 : ((10 ^ 5 * 10 ^ prec : ℕ) : ℤ) ≤ (n.natAbs : ℤ) := by
      exact_mod_cast hnat_ge
    rw [Int.natAbs_of_nonneg hn0] at h1
    calc (10 : ℤ) ^ 5 * 10 ^ prec = ((10 ^ 5 * 10 ^ prec : ℕ) : ℤ) := by
          push_cast
          ring
      _ ≤ n := h1
  have hyn : (n : ℚ) - 1 ≤ q * (10 : ℚ) ^ prec := by
    have h1 : n ≤ ⌊q * (10 : ℚ) ^ prec⌋ + 1 := by
      rw [hn]
      exact (roundHalfEven_bounds (q * (10 : ℚ) ^ prec)).2
    have h2 := Int.floor_le (q * (10 : ℚ) ^ prec)
    have h3 : (n : ℚ) ≤ ((⌊q * (10 : ℚ) ^ prec⌋ + 1 : ℤ) : ℚ) :=
      Int.cast_le.mpr h1
    push_cast at h3
    linarith
  have hq10 : (10 : ℚ) ^ 5 * 10 ^ prec - 1 ≤ q * (10 : ℚ) ^ prec := by
    have h1 : ((10 : ℚ) ^ 5 * 10 ^ prec : ℚ) ≤ (n : ℚ) := by
      exact_mod_cast hnz
    linarith
  have hpow : (1 : ℚ) ≤ (10 : ℚ) ^ prec := one_le_pow₀ (by norm_num)
  nlinarith [pow_pos (by norm_num : (0 : ℚ) < 10) prec]

/-- Core of the fixed-to-scientific fallback: when the fixed rendering
overflows, to_str re-formats in scientific notation at the same
precision, and for a nonnegative in-range value with width = precision
+ 6 the result is exactly the declared width. -/
theorem toStrFFixed_fallback (q : ℚ) (width prec : ℕ)
    (hover : width < (rjustL width (pyFixedChars q prec)).length) :
    toStrFFixed q width prec = rjustL width (pySciChars q prec) ∧
    (0 ≤ q → q < (10 : ℚ) ^ (99 : ℤ) → 1 ≤ prec → prec + 6 ≤ width →
      (toStrFFixed q width prec).length = width) := by
  have heq : toStrFFixed q width prec = rjustL width (pySciChars q prec) := by
    rw [toStrFFixed, if_pos hover]
  refine ⟨heq, fun h0 h99 hp hwp => ?_⟩
  have hq1 := overflow_value_ge_one q width prec h0 hp hwp hover
  have habs : |q| = q := abs_of_nonneg h0
  have hrange : sciRange q := by
    right
    constructor
    · rw [habs]
      calc (10 : ℚ) ^ (-99 : ℤ) ≤ 1 := by
            apply zpow_le_one_of_nonpos₀ (by norm_num : (1 : ℚ) ≤ 10)
            omega
        _ ≤ q := hq1
    · rw [habs]
      exact h99
  rw [heq, rjustL_length, pySciChars_length q prec hp hrange]
  rw [if_neg (not_lt.mpr h0)]
  omega

/-! ## Counting emitted connection records -/



theorem connePairsGo_eq : ∀ (rows : List (List ℤ)) (i : ℕ) (visited : List ℤ),
    (∀ j : ℤ, visited.contains j = true ↔ 0 ≤ j ∧ j < (i : ℤ)) →
    connePairsGo rows i visited = emittedFrom i rows := by
  intro rows
  induction rows with
  | nil => intro i visited hv; rfl
  | cons row rest ih =>
    intro i visited hv
    rw [connePairsGo, emittedFrom]
    have hmap : row.enum.filterMap (fun fj =>
        if 0 ≤ fj.2 ∧ ¬visited.contains fj.2 then some (i, fj.1, fj.2) else none) =
        (List.enumFrom 0 row).filterMap (fun fj =>
        if 0 ≤ fj.2 ∧ (i : ℤ) ≤ fj.2 then some (i, fj.1, fj.2) else none) := by
      rw [List.enum]
      apply List.filterMap_congr
      intro fj _
      have hiff : (0 ≤ fj.2 ∧ ¬visited.contains fj.2) ↔
          (0 ≤ fj.2 ∧ (i : ℤ) ≤ fj.2) := by
        constructor
        · rintro ⟨h0, hnc⟩
          refine ⟨h0, ?_⟩
          by_contra hlt
          exact hnc ((hv fj.2).mpr ⟨h0, by omega⟩)
        · rintro ⟨h0, hge⟩
          refine ⟨h0, fun hc => ?_⟩
          have := (hv fj.2).mp hc
          omega
      simp only [hiff]
    have hrec : connePairsGo rest (i + 1) ((i : ℤ) :: visited) =
        emittedFrom (i + 1) rest := by
      apply ih
      intro j
      simp only [List.contains_cons, Bool.or_eq_true, beq_iff_eq, hv j]
      constructor
      · rintro (h | h) <;> omega
      · intro h
        by_cases hj : j = (i : ℤ)
        · left
          exact hj
        · right
          exact ⟨h.1, by omega⟩
    by_cases hany : row.any (fun j => 0 ≤ j) = true
    · rw [if_pos hany, hmap, hrec]
    · rw [if_neg hany, hrec]
      have hnone : (List.enumFrom 0 row).filterMap (fun fj =>
          if 0 ≤ fj.2 ∧ (i : ℤ) ≤ fj.2 then some (i, fj.1, fj.2) else none) = [] := by
        apply List.filterMap_eq_nil.mpr
        intro fj hfj
        have hjm : fj.2 ∈ row := by
          have := List.enumFrom_map_snd 0 row
          have hm : fj.2 ∈ (List.enumFrom 0 row).map Prod.snd :=
            List.mem_map_of_mem Prod.snd hfj
          rw [this] at hm
          exact hm
        have hnv : ¬(0 ≤ fj.2) := by
          intro h0
          have : row.any (fun j => 0 ≤ j) = true :=
            List.any_eq_true.mpr ⟨fj.2, hjm, by simpa using h0⟩
          exact hany this
        rw [if_neg (by tauto)]
      rw [hnone, List.nil_append]

theorem countPair_append (l1 l2 : List (ℕ × ℕ × ℤ)) (a b : ℕ) :
    countPair (l1 ++ l2) a b = countPair l1 a b + countPair l2 a b := by
  simp [countPair, List.filter_append]

/-- Count of matching records emitted by one cell's slot scan. -/
theorem rowPart_countPair (row : List ℤ) (s i a b : ℕ) (hab : a < b) :
    countPair ((List.enumFrom s row).filterMap (fun fj =>
      if 0 ≤ fj.2 ∧ (i : ℤ) ≤ fj.2 then some (i, fj.1, fj.2) else none)) a b =
    if i = a then List.count ((b : ℤ)) row else 0 := by
  induction row generalizing s with
  | nil => simp [countPair]
  | cons x t ih =>
    rw [List.enumFrom_cons, List.filterMap_cons]
    by_cases hemit : 0 ≤ x ∧ (i : ℤ) ≤ x
    · rw [if_pos hemit]
      have hcons : countPair ((i, s, x) :: (List.enumFrom (s + 1) t).filterMap
          (fun fj => if 0 ≤ fj.2 ∧ (i : ℤ) ≤ fj.2 then some (i, fj.1, fj.2)
            else none)) a b =
          (if (i = a ∧ x = (b : ℤ)) ∨ (i = b ∧ x = (a : ℤ)) then 1 else 0) +
          countPair ((List.enumFrom (s + 1) t).filterMap
          (fun fj => if 0 ≤ fj.2 ∧ (i : ℤ) ≤ fj.2 then some (i, fj.1, fj.2)
            else none)) a b := by
        rw [countPair, List.filter_cons]
        split_ifs with h1 h2 h2
        · simp only [List.length_cons, countPair]
          omega
        · simp only [decide_eq_true_eq] at h1
          tauto
        · simp only [decide_eq_true_eq] at h1
          tauto
        · simp only [countPair]
          omega
      rw [hcons, ih (s + 1)]
      by_cases hia : i = a
      · subst hia
        by_cases hxb : x = (b : ℤ)
        · have hP : (i = i ∧ x = (b : ℤ)) ∨ (i = b ∧ x = (i : ℤ)) :=
            Or.inl ⟨rfl, hxb⟩
          rw [if_pos hP, if_pos rfl, if_pos rfl, List.count_cons]
          simp [hxb] <;> omega
        · have hP : ¬((i = i ∧ x = (b : ℤ)) ∨ (i = b ∧ x = (i : ℤ))) := by
            rintro (⟨_, h⟩ | ⟨h1, _⟩)
            · exact hxb h
            · omega
          rw [if_neg hP, if_pos rfl, if_pos rfl, List.count_cons]
          simp [hxb] <;> omega
      · have hP : ¬((i = a ∧ x = (b : ℤ)) ∨ (i = b ∧ x = (a : ℤ))) := by
          rintro (⟨h1, _⟩ | ⟨h1, h2⟩)
          · exact hia h1
          · subst h1
            have : (i : ℤ) ≤ x := hemit.2
            omega
        rw [if_neg hP, if_neg hia, if_neg hia]
    · rw [if_neg hemit, ih (s + 1)]
      by_cases hia : i = a
      · subst hia
        rw [if_pos rfl, if_pos rfl, List.count_cons]
        have hxb : ¬x = (b : ℤ) := by
          intro h
          apply hemit
          subst h
          constructor
          · omega
          · omega
        simp [hxb] <;> omega
      · rw [if_neg hia, if_neg hia]

theorem emittedFrom_countPair_gt : ∀ (rows : List (List ℤ)) (i a b : ℕ),
    a < b → a < i → countPair (emittedFrom i rows) a b = 0 := by
  intro rows
  induction rows with
  | nil => intro i a b hab hai; simp [emittedFrom, countPair]
  | cons row rest ih =>
    intro i a b hab hai
    rw [emittedFrom, countPair_append, rowPart_countPair row 0 i a b hab,
      if_neg (by omega), ih (i + 1) a b hab (by omega)]

theorem emittedFrom_countPair : ∀ (rows : List (List ℤ)) (i a b : ℕ),
    a < b → i ≤ a →
    countPair (emittedFrom i rows) a b = List.count ((b : ℤ)) (rows.getD (a - i) []) := by
  intro rows
  induction rows with
  | nil => intro i a b hab hia; simp [emittedFrom, countPair]
  | cons row rest ih =>
    intro i a b hab hia
    rw [emittedFrom, countPair_append, rowPart_countPair row 0 i a b hab]
    by_cases hie : i = a
    · subst hie
      rw [if_pos rfl, emittedFrom_countPair_gt rest (i + 1) i b hab (by omega)]
      simp
    · rw [if_neg hie, ih (i + 1) a b hab (by omega)]
      have : a - i = (a - (i + 1)) + 1 := by omega
      rw [this, List.getD_cons_succ]
      omega

/-- The emitted record count joining a < b equals the number of times b
occurs in cell a's neighbor list. -/
theorem connePairs_countPair (nb : List (List ℤ)) (a b : ℕ) (hab : a < b) :
    countPair (connePairs nb) a b = List.count ((b : ℤ)) (nb.getD a []) := by
  rw [connePairs, connePairsGo_eq nb 0 [] (by intro j; simp)]
  have := emittedFrom_countPair nb 0 a b hab (by omega)
  simpa using this

/-! ## Characterization of the face grouping and areas -/


theorem cellSlotFaces_spec : ∀ (slots : List (List ℤ)) tr qu,
    cellSlotFaces slots = some (tr, qu) →
    tr = slots.filterMap (fun row =>
      if validCountZ row = 3 then some (faceVerts row) else none) ∧
    qu = slots.filterMap (fun row =>
      if validCountZ row = 4 then some (faceVerts row) else none) := by
  intro slots
  induction slots with
  | nil =>
    intro tr qu h
    rw [cellSlotFaces] at h
    cases h
    simp
  | cons row t ih =>
    intro tr qu h
    rw [cellSlotFaces] at h
    rcases hrec : cellSlotFaces t with _ | p
    · rw [hrec] at h
      cases h
    · rw [hrec] at h
      obtain ⟨tr0, qu0⟩ := p
      have hih := ih tr0 qu0 hrec
      simp only [Option.bind_some] at h
      rw [List.filterMap_cons, List.filterMap_cons]
      split_ifs at h with h0 h3 h4
      · cases h
        rw [if_neg (by omega : ¬validCountZ row = 3),
          if_neg (by omega : ¬validCountZ row = 4)]
        exact hih
      · cases h
        rw [if_pos h3, if_neg (by omega : ¬validCountZ row = 4)]
        exact ⟨by rw [hih.1], hih.2⟩
      · cases h
        rw [if_neg (by omega : ¬validCountZ row = 3), if_pos h4]
        exact ⟨hih.1, by rw [hih.2]⟩
      · cases h

theorem collectFacesGo_spec : ∀ (faces : List (List (List ℤ))) (i : ℕ) out,
    collectFacesGo i faces = some out →
    out.1 = triSlots faces ∧ out.2.2.1 = quadSlots faces := by
  intro faces
  induction faces with
  | nil =>
    intro i out h
    rw [collectFacesGo] at h
    cases h
    simp [triSlots, quadSlots]
  | cons slots rest ih =>
    intro i out h
    rw [collectFacesGo] at h
    rcases h1 : cellSlotFaces slots with _ | p1
    · rw [h1] at h
      cases h
    · rw [h1] at h
      obtain ⟨tr, qu⟩ := p1
      rcases h2 : collectFacesGo (i + 1) rest with _ | p2
      · rw [h2] at h
        cases h
      · rw [h2] at h
        obtain ⟨t, tc, q, qc⟩ := p2
        simp only [Option.bind_some] at h
        cases h
        have hs := cellSlotFaces_spec slots tr qu h1
        have hr := ih (i + 1) (t, tc, q, qc) h2
        have hr1 : t = triSlots rest := hr.1
        have hr2 : q = quadSlots rest := hr.2
        constructor
        · show tr ++ t = triSlots (slots :: rest)
          rw [triSlots, List.flatMap_cons, hs.1, hr1]
          rfl
        · show qu ++ q = quadSlots (slots :: rest)
          rw [quadSlots, List.flatMap_cons, hs.2, hr2]
          rfl

theorem zipWith_add_replicate_zero : ∀ (l : List ℝ),
    List.zipWith (· + ·) l (List.replicate l.length 0) = l := by
  intro l
  induction l with
  | nil => rfl
  | cons x t ih => simp [List.zipWith, ih]

theorem zipWith_add_map_same {α : Type} (f g : α → ℝ) : ∀ (l : List α),
    List.zipWith (· + ·) (l.map f) (l.map g) = l.map (fun x => f x + g x) := by
  intro l
  induction l with
  | nil => rfl
  | cons x t ih => simp [List.zipWith, ih]

/-- The flat areas list: half the first-triangle magnitude for triangle
rows, half the sum of the two triangle magnitudes for quad rows, in
grouping order. -/
theorem faceNormalsAreasFlat_areas (points : List Vec3)
    (tris quads : List (List ℤ)) (hq : ¬quads = []) :
    (faceNormalsAreasFlat points tris quads).map Prod.snd =
      some (tris.map (fun r => normQ (triNormal points r) * (1 / 2)) ++
        quads.map (fun r =>
          (normQ (triNormal points r) + normQ (quadSecondNormal points r)) *
            (1 / 2))) := by
  have hqe : ¬quads.isEmpty := by
    simp [List.isEmpty_iff]
    exact hq
  rw [faceNormalsAreasFlat, if_neg hqe]
  rw [Option.map_some']
  congr 1
  have hmaps : (tris.map (triNormal points) ++ quads.map (triNormal points)).map normQ =
      tris.map (fun r => normQ (triNormal points r)) ++
      quads.map (fun r => normQ (triNormal points r)) := by
    rw [List.map_append, List.map_map, List.map_map]
    rfl
  rw [hmaps]
  have hlen1 : (tris.map (fun r => normQ (triNormal points r))).length =
      (List.replicate tris.length (0 : ℝ)).length := by
    simp
  rw [List.zipWith_append _ _ _ _ _ hlen1]
  have hz1 : List.zipWith (· + ·) (tris.map (fun r => normQ (triNormal points r)))
      (List.replicate tris.length (0 : ℝ)) =
      tris.map (fun r => normQ (triNormal points r)) := by
    have := zipWith_add_replicate_zero (tris.map (fun r => normQ (triNormal points r)))
    simpa using this
  have hz2 : List.zipWith (· + ·) (quads.map (fun r => normQ (triNormal points r)))
      (quads.map (fun r => normQ (quadSecondNormal points r))) =
      quads.map (fun r => normQ (triNormal points r) +
        normQ (quadSecondNormal points r)) :=
    zipWith_add_map_same _ _ quads
  rw [hz1, hz2]
  show List.map (fun a => a * (1 / 2))
      (List.map (fun r => normQ (triNormal points r)) tris ++
        List.map (fun r => normQ (triNormal points r) +
          normQ (quadSecondNormal points r)) quads) = _
  rw [List.map_append, List.map_map, List.map_map]
  rfl


/-! ## Validator: a None value is inert -/

theorem checkParameters_insert_none (schema : List (String × String))
    (k tag : String) (hk : alookup k schema = some tag)
    (htag : (alookup tag strToDtype).isSome = true) :
    ∀ ps1 ps2 : List (String × PyVal),
      checkParameters schema (ps1 ++ (k, PyVal.pNone) :: ps2) =
        checkParameters schema (ps1 ++ ps2) := by
  intro ps1
  induction ps1 with
  | nil =>
    intro ps2
    simp only [List.nil_append]
    rw [checkParameters]
    simp only [hk]
    obtain ⟨types, htypes⟩ := Option.isSome_iff_exists.mp htag
    simp only [htypes]
    rw [if_pos (Or.inl trivial)]
  | cons p ps ih =>
    intro ps2
    obtain ⟨k2, v2⟩ := p
    simp only [List.cons_append]
    rw [checkParameters]
    conv_rhs => rw [checkParameters]
    cases halo : alookup k2 schema with
    | none =>
      simp only [halo]
      rw [ih ps2]
    | some tag2 =>
      simp only [halo]
      cases halo2 : alookup tag2 strToDtype with
      | none => simp only [halo2]
      | some types2 =>
        simp only [halo2]
        split_ifs with hc
        · exact ih ps2
        · rfl

/-! ## Helper facts for witnesses -/

/-- Norm of a rational vector whose quadrance is a perfect square. -/
theorem normQ_of_sq (v : Vec3) (n : ℚ) (hn : 0 ≤ n) (h : quadrance v = n ^ 2) :
    normQ v = ((n : ℚ) : ℝ) := by
  rw [normQ, h]
  push_cast
  exact Real.sqrt_sq (by exact_mod_cast hn)


/-! ## Claims -/

/-- Claim C1, counterexample: the neighbor lists [[1, 1], [0, 0]] are
symmetric in the claim's sense (cell j lists cell i whenever cell i
lists cell j), yet the derivation emits two ConnectionRecords for the
unordered pair of cells 0 and 1, because cell 0 lists neighbor 1 in two
face slots and the visited-set check only suppresses already-completed
cells. -/
theorem conne_duplicate_neighbor_counterexample :
    (∀ a : ℕ, a < 2 → ∀ b : ℕ, b < 2 →
      (((b : ℤ) ∈ ([[1, 1], [0, 0]] : List (List ℤ)).getD a []) ↔
        ((a : ℤ) ∈ ([[1, 1], [0, 0]] : List (List ℤ)).getD b []))) ∧
    countPair (connePairs [[1, 1], [0, 0]]) 0 1 = 2 := by
  constructor
  · decide
  · decide

/-- Claim C1 (amended): for a mesh whose per-cell neighbor lists are
symmetric and list each valid neighbor at most once, the connection
derivation emits exactly one record per unique unordered pair of
adjacent cells (and none for non-adjacent pairs), by visiting cells in
increasing index order and skipping neighbors already fully
processed. -/
theorem conne_one_record_per_adjacent_pair (nb : List (List ℤ))
    (hsym : ∀ a : ℕ, a < nb.length → ∀ b : ℕ, b < nb.length →
      (((b : ℤ) ∈ nb.getD a []) ↔ ((a : ℤ) ∈ nb.getD b [])))
    (hnodup : ∀ a : ℕ, a < nb.length →
      ((nb.getD a []).filter (fun j => 0 ≤ j)).Nodup) :
    ∀ a b : ℕ, a < b → b < nb.length →
      countPair (connePairs nb) a b =
        if (b : ℤ) ∈ nb.getD a [] ∨ (a : ℤ) ∈ nb.getD b [] then 1 else 0 := by
  intro a b hab hb
  have ha : a < nb.length := lt_trans hab hb
  rw [connePairs_countPair nb a b hab]
  by_cases hadj : (b : ℤ) ∈ nb.getD a []
  · rw [if_pos (Or.inl hadj)]
    have hmemf : (b : ℤ) ∈ (nb.getD a []).filter (fun j => 0 ≤ j) :=
      List.mem_filter.mpr ⟨hadj, decide_eq_true (Int.natCast_nonneg b)⟩
    have hcf : List.count ((b : ℤ)) ((nb.getD a []).filter (fun j => 0 ≤ j)) =
        List.count ((b : ℤ)) (nb.getD a []) :=
      List.count_filter (decide_eq_true (Int.natCast_nonneg b))
    have hle := List.nodup_iff_count_le_one.mp (hnodup a ha) ((b : ℤ))
    have hpos : 0 < List.count ((b : ℤ))
        ((nb.getD a []).filter (fun j => 0 ≤ j)) :=
      List.count_pos_iff.mpr hmemf
    omega
  · have hadj2 : ¬(a : ℤ) ∈ nb.getD b [] := fun h =>
      hadj ((hsym a ha b hb).mpr h)
    rw [if_neg (by tauto)]
    exact List.count_eq_zero.mpr hadj

/-- Witness for claim C1: a two-cell mesh with one shared face emits
exactly one connection record. -/
theorem conne_one_record_per_adjacent_pair_witness :
    countPair (connePairs [[1, -1], [0, -1]]) 0 1 = 1 := by
  have h := conne_one_record_per_adjacent_pair [[1, -1], [0, -1]]
    (by decide) (by decide) 0 1 (by decide) (by decide)
  rw [h]
  decide

/-- Claim C2: encoding a representative scalar with a column format and
decoding the produced fixed-width text with the same column format
recovers the value within the declared precision: exactly for values
fitting fixed point (3.14, -1.5, the integer 42), and within half a
unit of the fourth significant decimal for 123456789.123, which
overflows a width-10 fixed field and falls back to the scientific
rendering 1.2346e+08. -/
theorem record_codec_round_trip_representatives :
    (writeRecord [FVal.vFloat (123456789.123 : ℚ)]
        [⟨10, some 4, FmtKind.f, true⟩] false =
      some [padLine80 "1.2346e+08".data] ∧
     readRecord (padLine80 "1.2346e+08".data) [⟨10, RKind.re⟩] =
      Except.ok [some (RVal.rvFloat (123460000 : ℚ))] ∧
     |(123460000 : ℚ) - (123456789.123 : ℚ)| ≤ 5000) ∧
    (writeRecord [FVal.vFloat (3.14 : ℚ)]
        [⟨10, some 4, FmtKind.f, true⟩] false =
      some [padLine80 "    3.1400".data] ∧
     readRecord (padLine80 "    3.1400".data) [⟨10, RKind.rf⟩] =
      Except.ok [some (RVal.rvFloat (3.14 : ℚ))]) ∧
    (writeRecord [FVal.vFloat (-1.5 : ℚ)]
        [⟨10, some 4, FmtKind.f, true⟩] false =
      some [padLine80 "   -1.5000".data] ∧
     readRecord (padLine80 "   -1.5000".data) [⟨10, RKind.rf⟩] =
      Except.ok [some (RVal.rvFloat (-1.5 : ℚ))]) ∧
    (writeRecord [FVal.vInt 42] [⟨5, none, FmtKind.d, true⟩] false =
      some [padLine80 "   42".data] ∧
     readRecord (padLine80 "   42".data) [⟨5, RKind.rd⟩] =
      Except.ok [some (RVal.rvInt 42)]) := by
  refine ⟨⟨by decide, by decide, by decide⟩, ⟨by decide, by decide⟩,
    ⟨by decide, by decide⟩, ⟨by decide, by decide⟩⟩

/-- Claim C3, counterexample: decoding "1.234-5" (or "1.234+5") does not
yield 1.234e-5 (resp. 1.234e5): the decoder slices off the last FOUR
characters as the exponent, re-assembles "1.2e34-5", and the second
float conversion raises an uncaught ValueError. -/
theorem str2float_short_shorthand_counterexample :
    str2float "1.234-5".data = none ∧ str2float "1.234+5".data = none := by
  constructor
  · decide
  · decide

/-- Claim C3 (amended): the decoder tolerates exponent shorthand whose
trailing exponent occupies exactly the last four characters,
re-assembling significand e exponent: "1.234-005" decodes to 1.234e-5,
"1.234+005" to 1.234e5, and the comment's own example "0.0001-001" to
1e-5. -/
theorem str2float_four_char_exponent_suffix :
    str2float "1.234-005".data = some (1.234e-5 : ℚ) ∧
    str2float "1.234+005".data = some (123400 : ℚ) ∧
    str2float "0.0001-001".data = some (1e-5 : ℚ) := by
  refine ⟨by decide, by decide, by decide⟩

/-- Claim C4, counterexample: for the value -123456789.123 in a width-10
precision-4 fixed field, the fixed rendering overflows and the encoder
falls back to scientific notation, but the result -1.2346e+08 has
length 11, not the declared width 10. -/
theorem to_str_negative_overflow_counterexample :
    10 < (rjustL 10 (pyFixedChars (-123456789.123 : ℚ) 4)).length ∧
    (toStrFFixed (-123456789.123 : ℚ) 10 4).length = 11 := by
  constructor
  · decide
  · decide

/-- Witness for claim C4: 123456789.123 in a width-10 precision-4 fixed
field falls back to scientific notation and exactly fits. -/
theorem toStrFFixed_fallback_witness :
    toStrFFixed (123456789.123 : ℚ) 10 4 =
      rjustL 10 (pySciChars (123456789.123 : ℚ) 4) ∧
    (toStrFFixed (123456789.123 : ℚ) 10 4).length = 10 := by
  have h := toStrFFixed_fallback (123456789.123 : ℚ) 10 4 (by decide)
  refine ⟨h.1, h.2 (by norm_num) ?_ (by norm_num) (by norm_num)⟩
  rw [show (99 : ℤ) = ((99 : ℕ) : ℤ) by norm_num, zpow_natCast]
  norm_num

/-- Claim C5, counterexample: for the quad face given as vertex indices
[0, 1, 3, 2] over points (0,0,0), (2,0,0), (3,2,0), (0,1,0), the
pipeline computes area 7/2 (it sorts the indices to [0, 1, 2, 3]
first), while the claim's formula on the vertices as given yields
5/2. -/
theorem quad_area_given_order_counterexample :
    (faceNormalsAreasFlat
        [⟨0, 0, 0⟩, ⟨2, 0, 0⟩, ⟨3, 2, 0⟩, ⟨0, 1, 0⟩]
        (List.map sortInts [])
        (List.map sortInts [[0, 1, 3, 2]])).map Prod.snd =
      some [((7 : ℝ) / 2)] ∧
    quadAreaSpec [⟨0, 0, 0⟩, ⟨2, 0, 0⟩, ⟨3, 2, 0⟩, ⟨0, 1, 0⟩] [0, 1, 3, 2] =
      ((5 : ℝ) / 2) ∧
    ((7 : ℝ) / 2) ≠ ((5 : ℝ) / 2) := by
  have hsort : List.map sortInts [[(0 : ℤ), 1, 3, 2]] = [[(0 : ℤ), 1, 2, 3]] := by
    decide
  have h1 : triNormal [⟨0, 0, 0⟩, ⟨2, 0, 0⟩, ⟨3, 2, 0⟩, ⟨0, 1, 0⟩]
      [(0 : ℤ), 1, 2, 3] = ⟨0, 0, 4⟩ := by decide
  have h2 : quadSecondNormal [⟨0, 0, 0⟩, ⟨2, 0, 0⟩, ⟨3, 2, 0⟩, ⟨0, 1, 0⟩]
      [(0 : ℤ), 1, 2, 3] = ⟨0, 0, 3⟩ := by decide
  have h3 : triNormalSlice [⟨0, 0, 0⟩, ⟨2, 0, 0⟩, ⟨3, 2, 0⟩, ⟨0, 1, 0⟩]
      [(0 : ℤ), 1, 3, 2] 0 1 2 = ⟨0, 0, 2⟩ := by decide
  have h4 : triNormalSlice [⟨0, 0, 0⟩, ⟨2, 0, 0⟩, ⟨3, 2, 0⟩, ⟨0, 1, 0⟩]
      [(0 : ℤ), 1, 3, 2] 0 2 3 = ⟨0, 0, -3⟩ := by decide
  refine ⟨?_, ?_, by norm_num⟩
  · rw [hsort, faceNormalsAreasFlat_areas _ _ _ (by decide)]
    rw [List.map_nil, List.map_cons, List.map_nil, List.nil_append]
    rw [h1, h2, normQ_of_sq ⟨0, 0, 4⟩ 4 (by norm_num) (by decide),
      normQ_of_sq ⟨0, 0, 3⟩ 3 (by norm_num) (by decide)]
    norm_num
  · rw [quadAreaSpec, h3, h4, normQ_of_sq ⟨0, 0, 2⟩ 2 (by norm_num) (by decide),
      normQ_of_sq ⟨0, 0, -3⟩ 3 (by norm_num) (by decide)]
    norm_num

/-- Claim C5 (amended): the face pipeline sorts each quad's vertex
indices ascending before computing normals, so each computed quad area
equals half the sum of the two cross-product magnitudes taken on the
index-sorted vertex sequence; the quad group is exactly the 4-valid-
vertex slots in traversal order, and the flat areas list carries the
triangle areas followed by these quad areas. -/
theorem quad_area_computed_on_sorted_vertices (points : List Vec3)
    (faces : List (List (List ℤ)))
    (tris : List (List ℤ)) (tcells : List ℕ)
    (quads : List (List ℤ)) (qcells : List ℕ)
    (h : collectFaces faces = some (tris, tcells, quads, qcells))
    (hq : ¬quads = []) :
    quads = quadSlots faces ∧
    (faceNormalsAreasFlat points (tris.map sortInts)
        (quads.map sortInts)).map Prod.snd =
      some ((tris.map (fun r => normQ (triNormal points (sortInts r)) * (1 / 2))) ++
        quads.map (fun r => quadAreaSpec points (sortInts r))) := by
  have hspec := collectFacesGo_spec faces 0 _ h
  have hquads : quads = quadSlots faces := hspec.2
  refine ⟨hquads, ?_⟩
  have hq2 : ¬quads.map sortInts = [] := by simp [hq]
  rw [faceNormalsAreasFlat_areas points (tris.map sortInts)
    (quads.map sortInts) hq2]
  rw [List.map_map, List.map_map]
  have htri : List.map ((fun r => normQ (triNormal points r) * (1 / 2)) ∘ sortInts)
      tris = List.map (fun r => normQ (triNormal points (sortInts r)) * (1 / 2))
      tris := rfl
  have hquad : List.map ((fun r => (normQ (triNormal points r) +
        normQ (quadSecondNormal points r)) * (1 / 2)) ∘ sortInts) quads =
      List.map (fun r => quadAreaSpec points (sortInts r)) quads := by
    apply List.map_congr_left
    intro r _
    show (normQ (triNormal points (sortInts r)) +
      normQ (quadSecondNormal points (sortInts r))) * (1 / 2) =
      quadAreaSpec points (sortInts r)
    rw [quadAreaSpec, triNormal, quadSecondNormal]
    ring
  rw [htri, hquad]

/-- Witness for claim C5: on the one-quad mesh above, the quad group is
the single given slot and the computed area list is the sorted-vertex
formula value. -/
theorem quad_area_computed_on_sorted_vertices_witness :
    ([[(0 : ℤ), 1, 3, 2]] : List (List ℤ)) = quadSlots [[[0, 1, 3, 2]]] ∧
    (faceNormalsAreasFlat [⟨0, 0, 0⟩, ⟨2, 0, 0⟩, ⟨3, 2, 0⟩, ⟨0, 1, 0⟩]
        (List.map sortInts []) (List.map sortInts [[0, 1, 3, 2]])).map Prod.snd =
      some [quadAreaSpec [⟨0, 0, 0⟩, ⟨2, 0, 0⟩, ⟨3, 2, 0⟩, ⟨0, 1, 0⟩]
        (sortInts [0, 1, 3, 2])] := by
  have h := quad_area_computed_on_sorted_vertices
    [⟨0, 0, 0⟩, ⟨2, 0, 0⟩, ⟨3, 2, 0⟩, ⟨0, 1, 0⟩]
    [[[0, 1, 3, 2]]] [] [] [[0, 1, 3, 2]] [0] (by decide) (by decide)
  exact ⟨h.1, h.2⟩

/-- Claim C6: in both nodal-distance modes a truthy boundary-condition
flag forces that side's nodal distance to the fixed constant 1.0e-9
regardless of the geometry, while a zero flag yields the geometrically
computed distance (line mode: distance to the line-plane intersection;
orthogonal mode: absolute point-plane distance). -/
theorem boundary_override_nodal_distance (b : ℚ) (center : Vec3) (fp : Vec3R)
    (ipoint : Vec3) (inormal : Vec3R) :
    (b ≠ 0 →
      nodalDistanceLine b center fp = ((boundaryDistance : ℚ) : ℝ) ∧
      distancePointPlane center ipoint inormal b = ((boundaryDistance : ℚ) : ℝ)) ∧
    (b = 0 →
      nodalDistanceLine b center fp = normRv (v3rSub (v3q2r center) fp) ∧
      distancePointPlane center ipoint inormal b =
        |v3rDot (v3rSub (v3q2r center) (v3q2r ipoint)) inormal|) := by
  constructor
  · intro hb
    constructor
    · rw [nodalDistanceLine, if_pos hb]
    · rw [distancePointPlane, if_pos hb]
  · intro hb
    constructor
    · rw [nodalDistanceLine, if_neg (by simp [hb])]
    · rw [distancePointPlane, if_neg (by simp [hb])]

/-- Witness for claim C6: a flagged side comes out as the fixed constant
at a concrete geometry. -/
theorem boundary_override_nodal_distance_witness :
    nodalDistanceLine 1 ⟨0, 0, 0⟩ ⟨5, 6, 7⟩ = ((boundaryDistance : ℚ) : ℝ) ∧
    distancePointPlane ⟨0, 0, 0⟩ ⟨3, 3, 3⟩ ⟨0, 0, 1⟩ 2 = ((boundaryDistance : ℚ) : ℝ) := by
  constructor
  · exact ((boundary_override_nodal_distance 1 ⟨0, 0, 0⟩ ⟨5, 6, 7⟩ ⟨3, 3, 3⟩
      ⟨0, 0, 1⟩).1 (by norm_num)).1
  · exact ((boundary_override_nodal_distance 2 ⟨0, 0, 0⟩ ⟨5, 6, 7⟩ ⟨3, 3, 3⟩
      ⟨0, 0, 1⟩).1 (by norm_num)).2

/-- Claim C7, counterexample: on the schema a: scalar with the container
a: "not_a_number", b: 1 in insertion order, the validator raises the
TypeError for a before ever reaching b, so no warning is logged for the
unrecognized key b — the claim's two effects do not both occur. -/
theorem validator_warning_not_logged_counterexample :
    checkParameters [("a", "scalar")]
      [("a", PyVal.pStr "not_a_number"), ("b", PyVal.pInt 1)] =
      ([], some (PyErr.typeError "a")) ∧
    "b" ∉ (checkParameters [("a", "scalar")]
      [("a", PyVal.pStr "not_a_number"), ("b", PyVal.pInt 1)]).1 := by
  constructor
  · decide
  · decide

/-- Claim C7 (amended): the validator raises a TypeError identifying key
a; the warning for the unrecognized key b is logged only if b is
iterated before the failing key — with b first the result carries both
the warning for b and the TypeError for a, with a first only the
TypeError. -/
theorem validator_typeerror_and_order_dependent_warning :
    checkParameters [("a", "scalar")]
      [("a", PyVal.pStr "not_a_number"), ("b", PyVal.pInt 1)] =
      ([], some (PyErr.typeError "a")) ∧
    checkParameters [("a", "scalar")]
      [("b", PyVal.pInt 1), ("a", PyVal.pStr "not_a_number")] =
      (["b"], some (PyErr.typeError "a")) := by
  constructor
  · decide
  · decide

/-- Claim C8, counterexample: a concrete CONNE record line is 70 display
columns plus the newline (71 characters), not 80 plus the newline: the
CONNE format's field widths sum to 70. -/
theorem conne_line_width_counterexample :
    (conneLine "AAA 1AAA 2".data 1 0 0 0 0).length = 71 ∧
    ¬(conneLine "AAA 1AAA 2".data 1 0 0 0 0).length = 81 := by
  constructor
  · decide
  · decide

/-- Claim C8 (amended): record-codec lines are the 80-column padding of
their joined fields plus a newline — at least 81 characters, exactly 81
when the fields fit, never truncated; ELEME record lines are exactly 80
columns plus newline for in-range values; CONNE record lines are
exactly 70 columns plus newline for in-range values. -/
theorem emitted_line_widths :
    (∀ (data : List FVal) (fmts : List PyFmt) (multi : Bool)
        (out : List (List Char)), writeRecord data fmts multi = some out →
      ∀ l ∈ out, ∃ c : List Char, l = padLine80 c ∧
        l.length = max 80 c.length + 1) ∧
    (∀ (label rock : List Char) (volume : ℚ) (c : Vec3), rock.length ≤ 5 →
      0 ≤ volume → sciRange volume → sciRange c.x → sciRange c.y →
      sciRange c.z → (elemeLine label rock volume c).length = 81) ∧
    (∀ (clabel : List Char) (isot : ℤ) (d1 d2 area beta : ℚ),
      0 ≤ isot → isot < 100000 → 0 ≤ d1 → sciRange d1 → 0 ≤ d2 →
      sciRange d2 → 0 ≤ area → sciRange area → sciRange beta →
      (conneLine clabel isot d1 d2 area beta).length = 71) := by
  refine ⟨?_, ?_, ?_⟩
  · intro data fmts multi out h l hl
    obtain ⟨c, hc⟩ := writeRecord_line_shape data fmts multi out h l hl
    exact ⟨c, hc, by rw [hc, padLine80_length]⟩
  · intro label rock volume c h1 h2 h3 h4 h5 h6
    exact elemeLine_length label rock volume c h1 h2 h3 h4 h5 h6
  · intro clabel isot d1 d2 area beta h1 h2 h3 h4 h5 h6 h7 h8 h9
    exact conneLine_length clabel isot d1 d2 area beta h1 h2 h3 h4 h5 h6 h7 h8 h9

/-- Witness for claim C8: concrete line lengths — a codec line of an
empty record is at least 81 characters; an all-zero ELEME record is 81;
an all-zero CONNE record is 71. -/
theorem emitted_line_widths_witness :
    81 ≤ (padLine80 ([] : List Char)).length ∧
    (elemeLine [] [] 0 ⟨0, 0, 0⟩).length = 81 ∧
    (conneLine [] 1 0 0 0 0).length = 71 := by
  refine ⟨?_, ?_, ?_⟩
  · obtain ⟨c, _, hlen⟩ := emitted_line_widths.1 [] [] false [padLine80 []]
      (by decide) (padLine80 []) (List.mem_singleton.mpr rfl)
    omega
  · exact emitted_line_widths.2.1 [] [] 0 ⟨0, 0, 0⟩ (by decide) (by norm_num)
      (Or.inl rfl) (Or.inl rfl) (Or.inl rfl) (Or.inl rfl)
  · exact emitted_line_widths.2.2 [] 1 0 0 0 0 (by norm_num) (by norm_num)
      (by norm_num) (Or.inl rfl) (by norm_num) (Or.inl rfl) (by norm_num)
      (Or.inl rfl) (Or.inl rfl)

/-- Claim C9, counterexample: an unsupported nodal-distance mode fails
with AssertionError (the first statement of write is a bare assert),
not with ValueError as the claim states. -/
theorem write_invalid_mode_counterexample :
    writeTough "midpoint" emptyMesh = Except.error PyErr.assertionError ∧
    PyErr.assertionError ≠ PyErr.valueError := by
  constructor
  · rw [writeTough, if_neg (by decide)]
  · decide

/-- Claim C9 (amended): calling the mesh writer with a nodal-distance
mode other than line or orthogonal fails fatally with an
AssertionError raised by the writer's first statement, before any
record is derived or any output line is emitted. -/
theorem write_invalid_mode_asserts (mode : String) (m : Mesh)
    (h : ¬(mode = "line" ∨ mode = "orthogonal")) :
    writeTough mode m = Except.error PyErr.assertionError := by
  rw [writeTough, if_neg h]

/-- Witness for claim C9. -/
theorem write_invalid_mode_asserts_witness :
    writeTough "diagonal" emptyMesh = Except.error PyErr.assertionError :=
  write_invalid_mode_asserts "diagonal" emptyMesh (by decide)

/-- Claim C10: for every schema and recognized key whose declared
semantic type tag is one of the type table's categories, a None value
passes validation silently — removing or inserting such an entry
changes neither the warnings logged nor the error raised. -/
theorem validator_none_always_passes (schema : List (String × String))
    (k tag : String) (hk : alookup k schema = some tag)
    (htag : (alookup tag strToDtype).isSome = true)
    (ps1 ps2 : List (String × PyVal)) :
    checkParameters schema (ps1 ++ (k, PyVal.pNone) :: ps2) =
      checkParameters schema (ps1 ++ ps2) :=
  checkParameters_insert_none schema k tag hk htag ps1 ps2

/-- Witness for claim C10: a lone recognized None entry yields no
warning and no error. -/
theorem validator_none_always_passes_witness :
    checkParameters [("a", "scalar")] [("a", PyVal.pNone)] = ([], none) := by
  have h := validator_none_always_passes [("a", "scalar")] "a" "scalar"
    (by decide) (by decide) [] []
  calc checkParameters [("a", "scalar")] [("a", PyVal.pNone)]
      = checkParameters [("a", "scalar")] [] := by simpa using h
    _ = ([], none) := by decide

end Toughio
